import Mathlib

/-!
Shallow embedding of wire_skin.py (diramazioni/wire_skin).

The Python source computes over IEEE floats via mathutils Vectors; the
embedding is parametric in an ordered field together with the two
transcendental operations the source uses (sqrt for Vector.magnitude /
Vector.normalized, atan2 for polar reordering) and the constant pi.
All structural facts proved below hold for every interpretation of those
operations; concrete witnesses instantiate the scalars with the rationals.

Python failure modes (AttributeError on the never-assigned self.radius,
TypeError when the tuple default of dist meets float arithmetic,
AttributeError when a None normal is used, IndexError / KeyError on
list / dict access) are modelled with Except.
-/

namespace WireSkinModel

/-- Interpretation of the float operations the source uses that are not
field operations: sqrt, atan2 and the constant pi. -/
structure FloatOps (α : Type) where
  sqrt : α → α
  atan2 : α → α → α
  pi : α

variable {α : Type} [Field α] [LinearOrder α]

/-- Python float abs. -/
def pabs (a : α) : α := if a < 0 then -a else a

/-- mathutils.Vector with three components. -/
structure V3 (α : Type) where
  x : α
  y : α
  z : α
deriving DecidableEq

namespace V3

def add (a b : V3 α) : V3 α := ⟨a.x + b.x, a.y + b.y, a.z + b.z⟩

def sub (a b : V3 α) : V3 α := ⟨a.x - b.x, a.y - b.y, a.z - b.z⟩

def neg (a : V3 α) : V3 α := ⟨-a.x, -a.y, -a.z⟩

def smul (c : α) (a : V3 α) : V3 α := ⟨c * a.x, c * a.y, c * a.z⟩

/-- Vector dot product (Python: v * w on mathutils Vectors). -/
def dot (a b : V3 α) : α := a.x * b.x + a.y * b.y + a.z * b.z

/-- Vector cross product. -/
def cross (a b : V3 α) : V3 α :=
  ⟨a.y * b.z - a.z * b.y, a.z * b.x - a.x * b.z, a.x * b.y - a.y * b.x⟩

def zero : V3 α := ⟨0, 0, 0⟩

instance : Add (V3 α) := ⟨V3.add⟩

instance : Sub (V3 α) := ⟨V3.sub⟩

instance : Neg (V3 α) := ⟨V3.neg⟩

instance : SMul α (V3 α) := ⟨V3.smul⟩

/-- Vector.magnitude: sqrt of the dot square. -/
def magnitude (F : FloatOps α) (v : V3 α) : α := F.sqrt (dot v v)

/-- Vector.normalized(): the zero vector stays zero (mathutils semantics),
otherwise the vector is scaled by the inverse of its magnitude. -/
def normalized (F : FloatOps α) (v : V3 α) : V3 α :=
  if dot v v = 0 then v else (1 / magnitude F v) • v

end V3

/-- 3x3 matrix as three rows (mathutils.Matrix built from three rows). -/
structure M3 (α : Type) where
  r0 : V3 α
  r1 : V3 α
  r2 : V3 α
deriving DecidableEq

namespace M3

def transpose (m : M3 α) : M3 α :=
  ⟨⟨m.r0.x, m.r1.x, m.r2.x⟩, ⟨m.r0.y, m.r1.y, m.r2.y⟩, ⟨m.r0.z, m.r1.z, m.r2.z⟩⟩

def det (m : M3 α) : α :=
  m.r0.x * (m.r1.y * m.r2.z - m.r1.z * m.r2.y)
    - m.r0.y * (m.r1.x * m.r2.z - m.r1.z * m.r2.x)
    + m.r0.z * (m.r1.x * m.r2.y - m.r1.y * m.r2.x)

/-- Matrix inverse by adjugate; mathutils Matrix.invert raises ValueError
on a singular matrix, modelled by the caller checking det = 0. -/
def inverse (m : M3 α) : M3 α :=
  let d := det m
  ⟨⟨(m.r1.y * m.r2.z - m.r1.z * m.r2.y) / d,
    (m.r0.z * m.r2.y - m.r0.y * m.r2.z) / d,
    (m.r0.y * m.r1.z - m.r0.z * m.r1.y) / d⟩,
   ⟨(m.r1.z * m.r2.x - m.r1.x * m.r2.z) / d,
    (m.r0.x * m.r2.z - m.r0.z * m.r2.x) / d,
    (m.r0.z * m.r1.x - m.r0.x * m.r1.z) / d⟩,
   ⟨(m.r1.x * m.r2.y - m.r1.y * m.r2.x) / d,
    (m.r0.y * m.r2.x - m.r0.x * m.r2.y) / d,
    (m.r0.x * m.r1.y - m.r0.y * m.r1.x) / d⟩⟩

def mulVec (m : M3 α) (v : V3 α) : V3 α :=
  ⟨V3.dot m.r0 v, V3.dot m.r1 v, V3.dot m.r2 v⟩

end M3

/-- Python runtime errors raised by the source. referenceError models
bmesh's ReferenceError on operations through a freed bmesh. -/
inductive Err where
  | attributeError
  | typeError
  | keyError
  | indexError
  | valueError
  | referenceError
deriving DecidableEq

/-- Python association: dict assignment d[k] = v replaces the value of an
existing key in place, otherwise appends the binding. -/
def assocPut {β : Type} (l : List (α × β)) (k : α) (v : β) : List (α × β) :=
  match l with
  | [] => [(k, v)]
  | (k1, v1) :: rest => if k1 = k then (k, v) :: rest else (k1, v1) :: assocPut rest k v

/-- Python dict lookup d[k] (raises KeyError when absent, via the caller). -/
def assocGet {β : Type} (l : List (Nat × β)) (k : Nat) : Option β :=
  match l with
  | [] => none
  | (k1, v1) :: rest => if k1 = k then some v1 else assocGet rest k

/-- Insert into a list sorted ascending (used to model Python sorted). -/
def insLe {β : Type} (le : β → β → Bool) (a : β) : List β → List β
  | [] => [a]
  | b :: rest => if le a b then a :: b :: rest else b :: insLe le a rest

/-- Insertion sort modelling Python sorted on distinct keys. -/
def sortLe {β : Type} (le : β → β → Bool) : List β → List β
  | [] => []
  | a :: rest => insLe le a (sortLe le rest)

/-- The running-minimum scan of join_profiles: carries the current minimum,
its index, and the index of the next element examined. -/
def minGo (lt : α → α → Bool) : List α → α → Nat → Nat → α × Nat
  | [], m, mi, _ => (m, mi)
  | b :: rest, m, mi, i =>
      if lt b m then minGo lt rest b i (i + 1) else minGo lt rest m mi (i + 1)

/-- min_len / min_i scan over a nonempty list of lengths. -/
def runMin (lt : α → α → Bool) (l : List α) : Option (α × Nat) :=
  match l with
  | [] => none
  | a :: rest => some (minGo lt rest a 0 1)

/-- Truthiness of an optional Python float: None and 0.0 are falsy. -/
def optTruthy (o : Option α) : Bool :=
  match o with
  | none => false
  | some v => decide (¬ v = 0)

/-- The bmesh accumulator: vertex positions (index = identity), faces as
index tuples, and crease-layer writes as (edge, value) records. gen
identifies which bmesh.new() call produced this bmesh: each create_mesh
call makes a fresh bmesh and frees it at the end, so a stored reference
is live exactly when its generation is the current build's. -/
structure BM (α : Type) where
  verts : List (V3 α)
  faces : List (List Nat)
  creases : List ((Nat × Nat) × α)
  gen : Nat
deriving DecidableEq

namespace BM

def empty : BM α := ⟨[], [], [], 0⟩

/-- bmesh.new() for build generation g. -/
def fresh (g : Nat) : BM α := ⟨[], [], [], g⟩

/-- bm.verts.new(pos): returns the fresh vertex (its index). -/
def newVert (bm : BM α) (p : V3 α) : Nat × BM α :=
  (bm.verts.length, { bm with verts := bm.verts ++ [p] })

/-- bm.faces.new(ids). -/
def newFace (bm : BM α) (ids : List Nat) : BM α :=
  { bm with faces := bm.faces ++ [ids] }

/-- Reading a vertex position (loop0[0].co). -/
def vertPos (bm : BM α) (i : Nat) : Option (V3 α) := bm.verts.get? i

/-- Writing edge[crease_layer] = value. -/
def stampCrease (bm : BM α) (e : Nat × Nat) (v : α) : BM α :=
  { bm with creases := bm.creases ++ [(e, v)] }

end BM

/-- The value stored in self.dist: a float when the option is supplied,
otherwise the tuple (0, 25) produced by the stray-comma default 0,25. -/
inductive PyNum (α : Type) where
  | num : α → PyNum α
  | pair : α → α → PyNum α
deriving DecidableEq

/-- The keyword-argument configuration. radius mirrors a kwargs entry the
source checks nowhere: VertCap reads self.radius, an attribute that is
never assigned. -/
structure Kwargs (α : Type) where
  width : Option α := none
  height : Option α := none
  dist : Option α := none
  inside_radius : Option α := none
  outside_radius : Option α := none
  radius : Option α := none
  crease : Option α := none
  displace : Option α := none
  proportional_scale : Option Bool := none
deriving DecidableEq

/-- One entry of input_edge_verts: neighbor position, neighbor index,
incident edge index and the edge length. -/
structure EdgeVert (α : Type) where
  v : V3 α
  i : Nat
  e : Nat
  l : α
deriving DecidableEq

/-- The per-vertex cap state. bm_gen is the generation of the bmesh the
cap stored as self.bm at construction; its verts.new / faces.new writes
go through that reference and raise ReferenceError once the bmesh has
been freed (i.e. once a later create_mesh call is running). -/
structure VertCap (α : Type) where
  bm_gen : Nat
  input_vert : V3 α
  input_edge_verts : List (EdgeVert α)
  width_2 : α
  height_2 : α
  dist : PyNum α
  inside_radius : α
  outside_radius : α
  crease : Option α
  displace : Option α
  proportional_scale : Bool
  poles : List Nat
  normal : Option (V3 α)
  profiles : List (List Nat)
  edge_profile_map : List (Nat × List Nat)
  creased_edges : List (Nat × Nat)
deriving DecidableEq

namespace VertCap

/-- VertCap.__init__. Reading the missing inside_radius / outside_radius
option falls through to self.radius, an attribute that was never
assigned: Python raises AttributeError there whether or not a radius
kwargs entry exists. -/
def init (v : V3 α) (gen : Nat) (kw : Kwargs α) : Except Err (VertCap α) :=
  let width_2 : α := match kw.width with
    | some w => w / 2
    | none => 1 / 10
  let height_2 : α := match kw.height with
    | some h => h / 2
    | none => width_2
  let dist : PyNum α := match kw.dist with
    | some d => PyNum.num d
    | none => PyNum.pair 0 25
  match kw.inside_radius with
  | none => Except.error Err.attributeError
  | some ir =>
    match kw.outside_radius with
    | none => Except.error Err.attributeError
    | some oor =>
      Except.ok
        { bm_gen := gen
          input_vert := v
          input_edge_verts := []
          width_2 := width_2
          height_2 := height_2
          dist := dist
          inside_radius := ir
          outside_radius := oor
          crease := kw.crease
          displace := kw.displace
          proportional_scale := match kw.proportional_scale with
            | some b => b
            | none => false
          poles := []
          normal := none
          profiles := []
          edge_profile_map := []
          creased_edges := [] }

/-- VertCap.add_edge_vert. -/
def add_edge_vert (F : FloatOps α) (vc : VertCap α) (edgeIdx : Nat) (vIdx : Nat)
    (pos : V3 α) : VertCap α :=
  { vc with input_edge_verts := vc.input_edge_verts ++
      [{ v := pos, i := vIdx, e := edgeIdx, l := V3.magnitude F (vc.input_vert - pos) }] }

/-- Sum of a list of vectors starting from zero. -/
def vsum : List (V3 α) → V3 α
  | [] => V3.zero
  | d :: rest => d + vsum rest

/-- VertCap.diff_average. -/
def diff_average (diffs : List (V3 α)) : V3 α :=
  (1 / (diffs.length : α)) • vsum diffs

/-- Sum of a list of scalars starting from zero. -/
def ssum : List α → α
  | [] => 0
  | a :: rest => a + ssum rest

/-- The covariance accumulation of least_squares_normal. -/
def covAccum (centroid : V3 α) (diffs : List (V3 α)) : α × α × α × α × α × α :=
  match diffs with
  | [] => (0, 0, 0, 0, 0, 0)
  | p :: rest =>
    let (xx, xy, xz, yy, yz, zz) := covAccum centroid rest
    let r := p - centroid
    (xx + r.x * r.x, xy + r.x * r.y, xz + r.x * r.z,
     yy + r.y * r.y, yz + r.y * r.z, zz + r.z * r.z)

/-- The largest of the three 2x2 minor determinant magnitudes computed by
least_squares_normal. -/
def lsqDetMax (vave : V3 α) (diffs : List (V3 α)) : α :=
  let (xx, xy, xz, yy, yz, zz) := covAccum vave diffs
  max (pabs (yy * zz - yz * yz)) (max (pabs (xx * zz - xz * xz)) (pabs (xx * yy - xy * xy)))

/-- VertCap.least_squares_normal. It never takes a square root: only
the ratios a, b are formed, so it is exact field arithmetic. -/
def least_squares_normal (vave : V3 α) (diffs : List (V3 α)) : V3 α :=
  let (xx, xy, xz, yy, yz, zz) := covAccum vave diffs
  let det_x := yy * zz - yz * yz
  let det_y := xx * zz - xz * xz
  let det_z := xx * yy - xy * xy
  let det_max := max (pabs det_x) (max (pabs det_y) (pabs det_z))
  if det_max < 1 / 100000 then
    -- Give up: 0.00001 threshold
    vave
  else
    let normal : V3 α :=
      if det_max = pabs det_x then
        ⟨1, (xz * yz - xy * zz) / det_x, (xy * yz - xz * yy) / det_x⟩
      else if det_max = pabs det_y then
        ⟨(yz * xz - xy * zz) / det_y, 1, (xy * xz - yz * xx) / det_y⟩
      else
        ⟨(yz * xy - xz * yy) / det_z, (xz * xy - yz * xx) / det_z, 1⟩
    if V3.dot vave normal < 0 then V3.neg normal else normal

/-- The unit direction vectors of the incident edges. -/
def poleDiffs (F : FloatOps α) (vc : VertCap α) : List (V3 α) :=
  vc.input_edge_verts.map (fun ev => V3.normalized F (ev.v - vc.input_vert))

/-- VertCap.create_pole_verts. Total: it only creates fresh vertices.
When the average direction is tiny the method returns with normal still
None and no poles (the crash only comes later). -/
def create_pole_verts (F : FloatOps α) (vc : VertCap α) (bm : BM α) : VertCap α × BM α :=
  if vc.input_edge_verts.length = 0 then (vc, bm)
  else
    let diffs := poleDiffs F vc
    let vave := diff_average diffs
    if V3.magnitude F vave > 1 / 10000000 then
      -- 0.0000001 threshold
      let normal : V3 α :=
        if vc.input_edge_verts.length < 3 then
          V3.neg (V3.normalized F vave)
        else
          V3.neg (V3.normalized F (least_squares_normal vave diffs))
      let scale : α :=
        if vc.proportional_scale then
          ssum (vc.input_edge_verts.map (fun ev => ev.l)) * (1 / (vc.input_edge_verts.length : α))
        else 1
      let mult := vc.outside_radius * scale
      let mult := if optTruthy vc.displace then mult + vc.displace.getD 0 else mult
      let (v1, bm) := bm.newVert (vc.input_vert + mult • normal)
      let vc1 := { vc with normal := some normal, poles := vc.poles ++ [v1] }
      if vc.input_edge_verts.length > 1 then
        let mult := -vc.inside_radius * scale
        let mult := if optTruthy vc.displace then mult + vc.displace.getD 0 else mult
        let (v2, bm) := bm.newVert (vc.input_vert + mult • normal)
        ({ vc1 with poles := vc1.poles ++ [v2] }, bm)
      else (vc1, bm)
    else (vc, bm)

/-- The create_pole_verts call as create_vert_cap_poles performs it. The
method's verts.new writes go through the cap's stored bmesh reference
(self.bm), which raises ReferenceError when that bmesh has been freed;
writes happen exactly when the cap has edge verts and vave is above the
threshold. The source assigns self.normal before the first write, so the
cap-state mutation (create_pole_verts) and the liveness of the writes are
modelled separately: the returned error is what the surrounding build
observes. -/
def create_pole_verts_checked (F : FloatOps α) (vc : VertCap α) (bm : BM α) :
    Except Err (VertCap α × BM α) :=
  if vc.input_edge_verts.length = 0 then Except.ok (vc, bm)
  else if V3.magnitude F (diff_average (poleDiffs F vc)) > 1 / 10000000 then
    if vc.bm_gen = bm.gen then Except.ok (create_pole_verts F vc bm)
    else Except.error Err.referenceError
  else Except.ok (vc, bm)

/-- The loop body of reorder_edge_verts that computes one edge vert's
polar angle: project into the local frame, take atan2, shift negatives
into [0, 2 pi). -/
def thetaKey (F : FloatOps α) (mat : M3 α) (origin : V3 α) (ev : EdgeVert α) : α :=
  let v := M3.mulVec mat (ev.v - origin)
  let theta := F.atan2 v.y v.x
  if theta < 0 then theta + 2 * F.pi else theta

/-- VertCap.reorder_edge_verts. The pole is treated as the up vector; each
later edge vert is projected and keyed by its polar angle in a Python
dict, so edge verts whose angles collide exactly overwrite each other.
Iterating sorted(dict) and indexing the dict equals sorting the
(distinct-key) binding list by key and taking the values. Raises
(modelled errors) when the normal is still None or the projection matrix
is singular (mathutils Matrix.invert ValueError). -/
def reorder_edge_verts (F : FloatOps α) (vc : VertCap α) : Except Err (VertCap α) :=
  if vc.input_edge_verts.length < 2 then Except.ok vc
  else
    match vc.normal with
    | none => Except.error Err.attributeError
    | some to_z =>
      match vc.input_edge_verts with
      | [] => Except.error Err.indexError
      | ev0 :: evRest =>
        let vedge := ev0.v - vc.input_vert
        let to_y := V3.normalized F (V3.cross to_z vedge)
        let to_x := V3.normalized F (V3.cross to_y to_z)
        let mat := M3.transpose ⟨to_x, to_y, to_z⟩
        if M3.det mat = 0 then Except.error Err.valueError
        else
          let mat := M3.inverse mat
          let theta_edge_verts : List (α × EdgeVert α) :=
            evRest.foldl (fun acc ev => assocPut acc (thetaKey F mat vc.input_vert ev) ev) []
          let sorted_edge_verts :=
            ev0 :: (sortLe (fun p q => decide (p.1 ≤ q.1)) theta_edge_verts).map
              (fun p => p.2)
          Except.ok { vc with input_edge_verts := sorted_edge_verts }

/-- The tail of VertCap.create_profile: append the four profile corner
vertices to the bmesh (bm.verts.new × 4), record the 4-index profile in
self.profiles and bind it to the edge index in self.edge_profile_map. -/
def emit_profile (vc : VertCap α) (edgeIdx : Nat) (c1 c2 c3 c4 : V3 α)
    (bm : BM α) : VertCap α × BM α :=
  let (v1, bm) := bm.newVert c1
  let (v2, bm) := bm.newVert c2
  let (v3, bm) := bm.newVert c3
  let (v4, bm) := bm.newVert c4
  let profile := [v1, v2, v3, v4]
  ({ vc with profiles := vc.profiles ++ [profile],
             edge_profile_map := assocPut vc.edge_profile_map edgeIdx profile }, bm)

/-- VertCap.create_profile for one (already reordered) edge vert. -/
def create_profile (F : FloatOps α) (vc : VertCap α) (ev : EdgeVert α)
    (other_normal : Option (V3 α)) (bm : BM α) : Except Err (VertCap α × BM α) :=
  let scale : α := if vc.proportional_scale then ev.l else 1
  match vc.dist with
  | PyNum.pair _ _ =>
    -- self.dist * scale with the tuple default: Python TypeError
    Except.error Err.typeError
  | PyNum.num d0 =>
    let dist := d0 * scale
    let width_2 := vc.width_2 * scale
    let height_2 := vc.height_2 * scale
    let vert := ev.v
    let etangent := vert - vc.input_vert
    let vpole : Option (V3 α) := vc.normal
    let blended : Except Err (Option (V3 α)) :=
      if V3.magnitude F etangent > 1 / 1000000 then
        -- 0.000001 threshold
        let proportion := min ((1 : α) / 2) (dist / V3.magnitude F etangent)
        match vc.normal, other_normal with
        | some n, some o => Except.ok (some ((1 - proportion) • n + proportion • o))
        | _, _ => Except.error Err.typeError
      else Except.ok vpole
    match blended with
    | Except.error e => Except.error e
    | Except.ok vpole =>
      let etangent := V3.normalized F etangent
      let ecenter := vc.input_vert + dist • etangent
      let vpole : Option (V3 α) :=
        if vc.input_edge_verts.length < 2 then
          let fudge : V3 α := ⟨1, 0, 0⟩
          if pabs (pabs (V3.dot fudge etangent) - V3.magnitude F etangent) > 1 / 10000 then
            some (etangent + fudge)
          else
            some (etangent + (⟨1, 1, 0⟩ : V3 α))
        else vpole
      match vpole with
      | none => Except.error Err.attributeError
      | some vp =>
        let ebinormal := width_2 • V3.normalized F (V3.cross vp etangent)
        let enormal := V3.normalized F (V3.cross etangent ebinormal)
        let ecenter :=
          if optTruthy vc.displace then ecenter + vc.displace.getD 0 • enormal else ecenter
        let enormal := height_2 • enormal
        -- the four verts.new writes go through the stored bmesh reference
        if vc.bm_gen = bm.gen then
          Except.ok (emit_profile vc ev.e
            (ecenter + enormal + ebinormal) (ecenter + enormal - ebinormal)
            (ecenter - enormal - ebinormal) (ecenter - enormal + ebinormal) bm)
        else Except.error Err.referenceError

/-- The loop body of create_profiles over the reordered edge verts. -/
def create_profiles_go (F : FloatOps α) (caps : List (VertCap α)) :
    List (EdgeVert α) → VertCap α → BM α → Except Err (VertCap α × BM α)
  | [], vc, bm => Except.ok (vc, bm)
  | ev :: rest, vc, bm =>
    match caps.get? ev.i with
    | none => Except.error Err.indexError
    | some other =>
      match create_profile F vc ev other.normal bm with
      | Except.error e => Except.error e
      | Except.ok (vc, bm) => create_profiles_go F caps rest vc bm

/-- VertCap.create_profiles. -/
def create_profiles (F : FloatOps α) (caps : List (VertCap α)) (vc : VertCap α)
    (bm : BM α) : Except Err (VertCap α × BM α) :=
  if vc.input_edge_verts.length = 0 then Except.ok (vc, bm)
  else
    match reorder_edge_verts F vc with
    | Except.error e => Except.error e
    | Except.ok vc => create_profiles_go F caps vc.input_edge_verts vc bm

/-- VertCap.get_edge_profile (dict lookup; KeyError when absent). -/
def get_edge_profile (vc : VertCap α) (edgeIdx : Nat) : Except Err (List Nat) :=
  match assocGet vc.edge_profile_map edgeIdx with
  | none => Except.error Err.keyError
  | some p => Except.ok p

/-- The loop body of create_pole_faces over the profiles. -/
def create_pole_faces_go (vc : VertCap α) : List (List Nat) → BM α → Except Err (BM α)
  | [], bm => Except.ok bm
  | profile :: rest, bm =>
    if vc.input_edge_verts.length > 1 then
      match vc.poles.get? 1, vc.poles.get? 0,
            profile.get? 3, profile.get? 2, profile.get? 1, profile.get? 0 with
      | some p1, some p0, some q3, some q2, some q1, some q0 =>
        if vc.bm_gen = bm.gen then
          let bm := bm.newFace [p1, q3, q2]
          let bm := bm.newFace [p0, q1, q0]
          create_pole_faces_go vc rest bm
        else Except.error Err.referenceError
      | _, _, _, _, _, _ => Except.error Err.indexError
    else
      match vc.poles.get? 0, profile.get? 0, profile.get? 1, profile.get? 2,
            profile.get? 3 with
      | some p0, some q0, some q1, some q2, some q3 =>
        if vc.bm_gen = bm.gen then
          let bm := bm.newFace [p0, q1, q0]
          let bm := bm.newFace [p0, q2, q1]
          let bm := bm.newFace [p0, q3, q2]
          let bm := bm.newFace [p0, q0, q3]
          create_pole_faces_go vc rest bm
        else Except.error Err.referenceError
      | _, _, _, _, _ => Except.error Err.indexError

/-- VertCap.create_pole_faces. For degree 1 the range(4) fan unrolls to
the four triangles [pole, profile[(i+1) % 4], profile[i]]. -/
def create_pole_faces (vc : VertCap α) (bm : BM α) : Except Err (BM α) :=
  create_pole_faces_go vc vc.profiles bm

/-- The loop body of create_inter_profile_faces over range(num_profiles). -/
def inter_faces_go (vc : VertCap α) (num_profiles : Nat) :
    List Nat → VertCap α → BM α → Except Err (VertCap α × BM α)
  | [], vcAcc, bm => Except.ok (vcAcc, bm)
  | i :: rest, vcAcc, bm =>
    match vc.profiles.get? i, vc.profiles.get? ((i + 1) % num_profiles),
          vc.poles.get? 0, vc.poles.get? 1 with
    | some this_profile, some next_profile, some pole0, some pole1 =>
      match this_profile.get? 0, this_profile.get? 3,
            next_profile.get? 1, next_profile.get? 2 with
      | some t0, some t3, some n1, some n2 =>
        if vc.bm_gen = bm.gen then
        let bm := bm.newFace [pole0, t0, n1]
        let bm := bm.newFace [pole1, n2, t3]
        let bm := bm.newFace [t0, t3, n2, n1]
        let vcAcc :=
          if vcAcc.crease.isSome then
            { vcAcc with creased_edges := vcAcc.creased_edges ++ [(t0, n1), (n2, t3)] }
          else vcAcc
        inter_faces_go vc num_profiles rest vcAcc bm
        else Except.error Err.referenceError
      | _, _, _, _ => Except.error Err.indexError
    | _, _, _, _ => Except.error Err.indexError

/-- VertCap.create_inter_profile_faces. -/
def create_inter_profile_faces (vc : VertCap α) (bm : BM α) :
    Except Err (VertCap α × BM α) :=
  if vc.input_edge_verts.length < 2 then Except.ok (vc, bm)
  else inter_faces_go vc vc.profiles.length (List.range vc.profiles.length) vc bm

/-- VertCap.crease_edges: stamps self.crease (a float when the layer
exists; a None crease written to the layer is a TypeError). The stamped
handles belong to the cap's own build's bmesh; no create_mesh execution
reaches this phase with a stale cap that recorded creased edges (a reused
instance over an edgeless wireframe records none, and any other reused
build aborts with ReferenceError in the pole or profile phase first), so
no liveness check is modelled here. -/
def crease_edges (vc : VertCap α) (bm : BM α) : Except Err (BM α) :=
  match vc.crease with
  | none =>
    if vc.creased_edges.isEmpty then Except.ok bm else Except.error Err.typeError
  | some c => Except.ok (vc.creased_edges.foldl (fun b e => b.stampCrease e c) bm)

end VertCap

/-- The per-edge connector state. -/
structure ProfileConnector (α : Type) where
  edgeIdx : Nat
  edgeV : Nat × Nat
  crease : Option α
  creased_edges : List (Nat × Nat)
deriving DecidableEq

namespace ProfileConnector

/-- ProfileConnector.__init__. -/
def init (edgeIdx : Nat) (e : Nat × Nat) (kw : Kwargs α) : ProfileConnector α :=
  { edgeIdx := edgeIdx, edgeV := e, crease := kw.crease, creased_edges := [] }

/-- The faces loop of join_profiles, over idx in range(4). Python % on a
possibly negative left operand with positive modulus matches Int.emod. -/
def join_go (loop0 loop1 : List Nat) (min_i min_i2 : Nat) (mult : Int) :
    List Nat → ProfileConnector α → BM α → Except Err (ProfileConnector α × BM α)
  | [], pc, bm => Except.ok (pc, bm)
  | idx :: rest, pc, bm =>
    let idx1 := (idx + 1) % 4
    let idx2 := (((min_i2 : Int) + mult * (idx : Int)) % 4).toNat
    let idx3 := (((min_i : Int) + mult * (idx : Int)) % 4).toNat
    match loop0.get? idx, loop0.get? idx1, loop1.get? idx2, loop1.get? idx3 with
    | some a, some b, some c, some d =>
      let bm := bm.newFace [a, b, c, d]
      let pc :=
        if pc.crease.isSome then { pc with creased_edges := pc.creased_edges ++ [(b, c)] }
        else pc
      join_go loop0 loop1 min_i min_i2 mult rest pc bm
    | _, _, _, _ => Except.error Err.indexError

/-- The positions of a list of mesh vertices ([Vector(p.co) for p in loop]). -/
def vertsOf (bm : BM α) : List Nat → Option (List (V3 α))
  | [] => some []
  | i :: rest =>
    match bm.vertPos i, vertsOf bm rest with
    | some p, some ps => some (p :: ps)
    | _, _ => none

/-- ProfileConnector.join_profiles. -/
def join_profiles (F : FloatOps α) (pc : ProfileConnector α) (caps : List (VertCap α))
    (bm : BM α) : Except Err (ProfileConnector α × BM α) :=
  match caps.get? pc.edgeV.1, caps.get? pc.edgeV.2 with
  | some vc0, some vc1 =>
    match vc0.get_edge_profile pc.edgeIdx, vc1.get_edge_profile pc.edgeIdx with
    | Except.ok loop0, Except.ok loop1 =>
      match loop0.get? 0, loop0.get? 1 with
      | some i0, some i1 =>
        match bm.vertPos i0, bm.vertPos i1, vertsOf bm loop1 with
        | some v0, some v1, some vloop1 =>
          let lengths := vloop1.map (fun p => V3.magnitude F (v0 - p))
          match runMin (fun a b => decide (a < b)) lengths with
          | none => Except.error Err.indexError
          | some (_, min_i) =>
            match vloop1.get? ((min_i + 1) % 4), vloop1.get? (((min_i : Int) - 1) % 4).toNat with
            | some w1, some w2 =>
              let len1 := V3.magnitude F (w1 - v1)
              let len2 := V3.magnitude F (w2 - v1)
              if len1 < len2 then
                join_go loop0 loop1 min_i ((min_i + 1) % 4) 1 (List.range 4) pc bm
              else
                join_go loop0 loop1 min_i (((min_i : Int) - 1) % 4).toNat (-1) (List.range 4) pc bm
            | _, _ => Except.error Err.indexError
        | _, _, _ => Except.error Err.indexError
      | _, _ => Except.error Err.indexError
    | _, _ => Except.error Err.keyError
  | _, _ => Except.error Err.indexError

/-- ProfileConnector.crease_edges: always stamps the constant 1.0. -/
def crease_edges (pc : ProfileConnector α) (bm : BM α) : BM α :=
  pc.creased_edges.foldl (fun b e => b.stampCrease e (1 : α)) bm

end ProfileConnector

/-- The input wireframe: vertex positions and edges as index pairs; an
edge's identity is its position in the list. -/
structure Wireframe (α : Type) where
  verts : List (V3 α)
  edges : List (Nat × Nat)
deriving DecidableEq

/-- The orchestrator state; vert_caps and profile_connectors persist
across create_mesh calls (they are only appended to). -/
structure WireSkin (α : Type) where
  mesh : Wireframe α
  kwargs : Kwargs α
  crease_layer : Bool
  vert_caps : List (VertCap α)
  profile_connectors : List (ProfileConnector α)
  build_count : Nat
deriving DecidableEq

namespace WireSkin

/-- WireSkin.__init__. -/
def init (m : Wireframe α) (kw : Kwargs α) : WireSkin α :=
  { mesh := m, kwargs := kw, crease_layer := false, vert_caps := [],
    profile_connectors := [], build_count := 0 }

/-- WireSkin.create_vert_caps: one VertCap per wireframe vertex, appended,
each storing the current build's bmesh (its generation). -/
def initCaps (gen : Nat) (kw : Kwargs α) : List (V3 α) → Except Err (List (VertCap α))
  | [] => Except.ok []
  | v :: rest =>
    match VertCap.init v gen kw with
    | Except.error e => Except.error e
    | Except.ok c =>
      match initCaps gen kw rest with
      | Except.error e => Except.error e
      | Except.ok cs => Except.ok (c :: cs)

/-- One registration vert_caps[this].add_edge_vert(edge j, vertices[other]). -/
def registerOne (F : FloatOps α) (verts : List (V3 α)) (j this other : Nat)
    (caps : List (VertCap α)) : Except Err (List (VertCap α)) :=
  match verts.get? other with
  | none => Except.error Err.indexError
  | some ov =>
    match caps.get? this with
    | none => Except.error Err.indexError
    | some c => Except.ok (caps.set this (c.add_edge_vert F j other ov))

/-- WireSkin.add_edges_to_vert_caps: each edge is registered with both of
its endpoint caps (j counts the edge index). -/
def addEdges (F : FloatOps α) (verts : List (V3 α)) :
    Nat → List (Nat × Nat) → List (VertCap α) → Except Err (List (VertCap α))
  | _, [], caps => Except.ok caps
  | j, e :: rest, caps =>
    match registerOne F verts j e.1 e.2 caps with
    | Except.error err => Except.error err
    | Except.ok caps =>
      match registerOne F verts j e.2 e.1 caps with
      | Except.error err => Except.error err
      | Except.ok caps => addEdges F verts (j + 1) rest caps

/-- WireSkin.create_vert_cap_poles. Each cap's pole writes go through its
stored bmesh reference, so a stale cap aborts the phase. -/
def polesPhase (F : FloatOps α) :
    List (VertCap α) → BM α → Except Err (List (VertCap α) × BM α)
  | [], bm => Except.ok ([], bm)
  | c :: rest, bm =>
    match VertCap.create_pole_verts_checked F c bm with
    | Except.error e => Except.error e
    | Except.ok (c1, bm1) =>
      match polesPhase F rest bm1 with
      | Except.error e => Except.error e
      | Except.ok (cs, bm2) => Except.ok (c1 :: cs, bm2)

/-- WireSkin.create_vert_cap_profiles: the caps list evolves in place
while each cap in order builds its profiles (reading neighbor normals
from the current list). -/
def profilesPhase (F : FloatOps α) :
    List Nat → List (VertCap α) → BM α → Except Err (List (VertCap α) × BM α)
  | [], caps, bm => Except.ok (caps, bm)
  | i :: rest, caps, bm =>
    match caps.get? i with
    | none => Except.error Err.indexError
    | some c =>
      match VertCap.create_profiles F caps c bm with
      | Except.error e => Except.error e
      | Except.ok (c1, bm1) => profilesPhase F rest (caps.set i c1) bm1

/-- WireSkin.create_vert_cap_faces. -/
def facesPhase :
    List Nat → List (VertCap α) → BM α → Except Err (List (VertCap α) × BM α)
  | [], caps, bm => Except.ok (caps, bm)
  | i :: rest, caps, bm =>
    match caps.get? i with
    | none => Except.error Err.indexError
    | some c =>
      match VertCap.create_pole_faces c bm with
      | Except.error e => Except.error e
      | Except.ok bm1 =>
        match VertCap.create_inter_profile_faces c bm1 with
        | Except.error e => Except.error e
        | Except.ok (c1, bm2) => facesPhase rest (caps.set i c1) bm2

/-- WireSkin.connect_profiles: one ProfileConnector per edge, appended and
run. -/
def connectPhase (F : FloatOps α) (kw : Kwargs α) (caps : List (VertCap α)) :
    Nat → List (Nat × Nat) → List (ProfileConnector α) → BM α →
    Except Err (List (ProfileConnector α) × BM α)
  | _, [], pcs, bm => Except.ok (pcs, bm)
  | j, e :: rest, pcs, bm =>
    let pc := ProfileConnector.init j e kw
    match ProfileConnector.join_profiles F pc caps bm with
    | Except.error err => Except.error err
    | Except.ok (pc1, bm1) => connectPhase F kw caps (j + 1) rest (pcs ++ [pc1]) bm1

/-- The cap half of WireSkin.crease_edges. -/
def capsCrease : List (VertCap α) → BM α → Except Err (BM α)
  | [], bm => Except.ok bm
  | c :: rest, bm =>
    match VertCap.crease_edges c bm with
    | Except.error e => Except.error e
    | Except.ok bm1 => capsCrease rest bm1

/-- The connector half of WireSkin.crease_edges. -/
def pcsCrease : List (ProfileConnector α) → BM α → BM α
  | [], bm => bm
  | p :: rest, bm => pcsCrease rest (ProfileConnector.crease_edges p bm)

/-- WireSkin.crease_edges (guarded by the crease layer's truthiness). -/
def creasePhase (layer : Bool) (caps : List (VertCap α))
    (pcs : List (ProfileConnector α)) (bm : BM α) : Except Err (BM α) :=
  if layer then
    match capsCrease caps bm with
    | Except.error e => Except.error e
    | Except.ok bm1 => Except.ok (pcsCrease pcs bm1)
  else Except.ok bm

/-- WireSkin.create_mesh: the full pipeline in source phase order. The
returned pair is the mutated WireSkin state and the produced mesh. -/
def create_mesh (F : FloatOps α) (ws : WireSkin α) : Except Err (WireSkin α × BM α) :=
  let bm : BM α := BM.fresh ws.build_count
  let layer := if ws.kwargs.crease.isSome then true else ws.crease_layer
  match initCaps ws.build_count ws.kwargs ws.mesh.verts with
  | Except.error e => Except.error e
  | Except.ok newCaps =>
    let caps := ws.vert_caps ++ newCaps
    match addEdges F ws.mesh.verts 0 ws.mesh.edges caps with
    | Except.error e => Except.error e
    | Except.ok caps =>
      match polesPhase F caps bm with
      | Except.error e => Except.error e
      | Except.ok (caps, bm) =>
        match profilesPhase F (List.range caps.length) caps bm with
        | Except.error e => Except.error e
        | Except.ok (caps, bm) =>
          match facesPhase (List.range caps.length) caps bm with
          | Except.error e => Except.error e
          | Except.ok (caps, bm) =>
            match connectPhase F ws.kwargs caps 0 ws.mesh.edges ws.profile_connectors bm with
            | Except.error e => Except.error e
            | Except.ok (pcs, bm) =>
              match creasePhase layer caps pcs bm with
              | Except.error e => Except.error e
              | Except.ok bm =>
                -- bm.free(): the build's bmesh is dead once the call returns
                Except.ok
                  ({ ws with crease_layer := layer, vert_caps := caps,
                             profile_connectors := pcs,
                             build_count := ws.build_count + 1 }, bm)

end WireSkin

/-- A rational pseudo-angle with the ordering behavior of atan2: range
(-2, 2], monotone in the true angle, with qpi = 2 playing pi, so the
source's shift of negative angles by 2 * pi lands in [0, 4). Used to
instantiate the abstract float operations over the rationals. -/
def qatan2 (y x : ℚ) : ℚ :=
  if x = 0 then
    (if y > 0 then 1 else if y < 0 then -1 else 0)
  else
    let a := y / (pabs x + pabs y)
    if x > 0 then a
    else if y ≥ 0 then 2 - a else -2 - a

/-- Rational interpretation of the float operations. sqrt is interpreted
as the identity: every theorem below about the embedding is proved for
all interpretations, and concrete runs only need an executable one. -/
def QOps : FloatOps ℚ :=
  { sqrt := fun q => q, atan2 := qatan2, pi := 2 }

deriving instance DecidableEq for Except

/-- The wireframe degree of vertex i: the number of edge registrations the
cap receives (each incident edge once per endpoint slot). -/
def degree (w : Wireframe α) (i : Nat) : Nat :=
  (w.edges.filter (fun e => e.1 = i)).length + (w.edges.filter (fun e => e.2 = i)).length

/-- The edge indices registered with the cap of vertex i, in registration
order (j counts the edge position). -/
def incidentIdx (i : Nat) : Nat → List (Nat × Nat) → List Nat
  | _, [] => []
  | j, e :: rest =>
    ((if e.1 = i then [j] else []) ++ (if e.2 = i then [j] else [])) ++
      incidentIdx i (j + 1) rest

/-- Well-formed wireframes have no self-loop edges (spec data model). -/
def noSelfLoops (w : Wireframe α) : Prop := ∀ e ∈ w.edges, e.1 ≠ e.2

/-- The edge-index projection of an edge-vert list. -/
def eProj (l : List (EdgeVert α)) : List Nat := l.map (fun ev => ev.e)

/-- Expected pole count per degree. -/
def polesExpected (d : Nat) : Nat := if d = 0 then 0 else if d = 1 then 1 else 2

/-- Expected intra-cap face count per degree: two end-cap triangles per
profile plus three lens faces per adjacent profile pair when d is at
least 2; a 4-triangle fan for a leaf. -/
def intraFaces (d : Nat) : Nat := if d = 0 then 0 else if d = 1 then 4 else 2 * d + 3 * d

/-- A freshly constructed cap: no edges, no poles, no profiles, no map,
no normal. -/
def freshCap (c : VertCap α) : Prop :=
  c.input_edge_verts = [] ∧ c.poles = [] ∧ c.profiles = [] ∧
    c.edge_profile_map = [] ∧ c.normal = none

/-- Concrete configuration used by witnesses: both radii and dist given. -/
def fixKw : Kwargs ℚ :=
  { dist := some (1/4), inside_radius := some (1/10), outside_radius := some (1/10) }

/-- A single segment wireframe. -/
def fixSeg : Wireframe ℚ := ⟨[⟨0, 0, 0⟩, ⟨1, 0, 0⟩], [(0, 1)]⟩

/-- A straight line through the origin: the middle vertex has two
opposite incident directions, so vave is exactly zero. -/
def fixLine : Wireframe ℚ := ⟨[⟨0, 0, 0⟩, ⟨1, 0, 0⟩, ⟨-1, 0, 0⟩], [(0, 1), (0, 2)]⟩

/-- A triangle: every vertex has degree 2. -/
def fixTri : Wireframe ℚ := ⟨[⟨0, 0, 0⟩, ⟨1, 0, 0⟩, ⟨0, 1, 0⟩], [(0, 1), (1, 2), (2, 0)]⟩

/-- A degree-1 cap fixture (one incident unit edge along x). -/
def fixCap1 : VertCap ℚ :=
  { bm_gen := 0
    input_vert := ⟨0, 0, 0⟩
    input_edge_verts := [⟨⟨1, 0, 0⟩, 1, 0, 1⟩]
    width_2 := 1/10, height_2 := 1/10, dist := PyNum.num (1/4)
    inside_radius := 1/10, outside_radius := 1/10
    crease := none, displace := none, proportional_scale := false
    poles := [], normal := none, profiles := [], edge_profile_map := []
    creased_edges := [] }

/-- A degree-3 cap fixture (incident unit edges along the three axes). -/
def fixCap3 : VertCap ℚ :=
  { fixCap1 with
    input_edge_verts :=
      [⟨⟨1, 0, 0⟩, 1, 0, 1⟩, ⟨⟨0, 1, 0⟩, 2, 1, 1⟩, ⟨⟨0, 0, 1⟩, 3, 2, 1⟩] }

/-- The crease stamps a cap writes: its recorded edges with its own value. -/
def capStamp (c : α) (vc : VertCap α) : List ((Nat × Nat) × α) :=
  vc.creased_edges.map (fun e => (e, c))

/-- The crease stamps a connector writes: always the constant 1.0. -/
def pcStamp (pc : ProfileConnector α) : List ((Nat × Nat) × α) :=
  pc.creased_edges.map (fun e => (e, (1 : α)))

/-- A cap fixture carrying a recorded creased edge and crease 1/2. -/
def fixCapCr : VertCap ℚ :=
  { fixCap1 with crease := some (1/2), creased_edges := [(0, 1)] }

/-- A connector fixture carrying a recorded creased edge and crease 1/3. -/
def fixPcCr : ProfileConnector ℚ :=
  { edgeIdx := 0, edgeV := (0, 1), crease := some (1/3), creased_edges := [(2, 3)] }

/-- One connector quad as slot indices: entries below 4 index loop0,
entries 4..7 index loop1 shifted by 4. Mirrors the body of the
join_profiles faces loop at a given idx. -/
def slotRow (min_i min_i2 : Nat) (mult : Int) (idx : Nat) : List Nat :=
  [idx, (idx + 1) % 4,
   4 + (((min_i2 : Int) + mult * (idx : Int)) % 4).toNat,
   4 + (((min_i : Int) + mult * (idx : Int)) % 4).toNat]

/-- The slot-index quads of the whole connector for a given min_i and
winding direction (forward: mult = 1 and min_i2 = min_i + 1 mod 4;
backward: mult = -1 and min_i2 = min_i - 1 mod 4). -/
def slotFaces (min_i : Nat) (fw : Bool) : List (List Nat) :=
  (List.range 4).map
    (slotRow min_i
      (if fw then (min_i + 1) % 4 else (((min_i : Int) - 1) % 4).toNat)
      (if fw then 1 else -1))

/-- The stored position of a mesh vertex (zero default for statements;
hypotheses keep indices in range). -/
def posD (bm : BM α) (id : Nat) : V3 α := bm.verts.getD id V3.zero

/-- The Euclidean distance the connector compares: magnitude of the
difference of two stored positions. -/
def c2dist (F : FloatOps α) (bm : BM α) (a b : Nat) : α :=
  V3.magnitude F (posD bm a - posD bm b)

/-- Connector witness fixture: endpoint caps holding the two length-4
profile loops of edge 0. -/
def fixCapL0 : VertCap ℚ := { fixCap1 with edge_profile_map := [(0, [0, 1, 2, 3])] }

/-- Second endpoint cap of the connector witness fixture. -/
def fixCapL1 : VertCap ℚ := { fixCap1 with edge_profile_map := [(0, [4, 5, 6, 7])] }

/-- Connector witness fixture: eight distinct vertex positions. -/
def fixBM8 : BM ℚ :=
  ⟨[⟨0, 0, 0⟩, ⟨0, 1, 0⟩, ⟨0, 1, 1⟩, ⟨0, 0, 1⟩,
    ⟨4, 0, 0⟩, ⟨4, 1, 0⟩, ⟨4, 1, 1⟩, ⟨4, 0, 1⟩], [], [], 0⟩

/-- Connector witness fixture: the connector of edge 0 between caps 0, 1. -/
def fixPcJoin : ProfileConnector ℚ := ⟨0, (0, 1), none, []⟩

/-- The full rational build over the triangle wireframe. -/
def triBuild : Except Err (WireSkin ℚ × BM ℚ) :=
  WireSkin.create_mesh QOps (WireSkin.init fixTri fixKw)

/-- The WireSkin state after the triangle build (fallback never used: the
build succeeds). -/
def triWS : WireSkin ℚ :=
  (triBuild.toOption.getD (WireSkin.init fixTri fixKw, BM.empty)).1

/-- The bmesh after the triangle build. -/
def triBM : BM ℚ :=
  (triBuild.toOption.getD (WireSkin.init fixTri fixKw, BM.empty)).2

/-- A second build over the same (already used) triangle WireSkin state. -/
def triBuild2 : Except Err (WireSkin ℚ × BM ℚ) :=
  WireSkin.create_mesh QOps triWS

/-- Two optional displacements that Python's truthiness test cannot tell
apart: same truthiness and same fallback value. displace = Some 0 and
displace = None are the motivating pair. -/
def zeroDisp (o o2 : Option α) : Prop :=
  optTruthy o = optTruthy o2 ∧ o.getD 0 = o2.getD 0

/-- Two caps equal everywhere except for an indistinguishable displace. -/
def capR (c c2 : VertCap α) : Prop :=
  c2 = { c with displace := c2.displace } ∧ zeroDisp c.displace c2.displace

/-- Overwrite a cap's displace field. -/
def setDisp (d : Option α) (c : VertCap α) : VertCap α := { c with displace := d }

/-- Every cap in the list has a displace that Python truthiness cannot
tell apart from d. -/
def allZ (d : Option α) (caps : List (VertCap α)) : Prop :=
  ∀ c ∈ caps, zeroDisp d c.displace

/-- C3: the claim says a missing inside_radius / outside_radius falls back
to a radius option when present, and that a missing radius is reported as
a configuration error before geometry generation. In the source the
fallback reads self.radius, an attribute that is never assigned, so
VertCap construction raises AttributeError even when a radius kwargs
entry is supplied; there is no config-validation step. The three
conjuncts evaluate VertCap.__init__ with radius supplied but
inside_radius missing, with nothing supplied, and with radius and
inside_radius supplied but outside_radius missing: all raise. -/
theorem c3_radius_fallback_is_broken :
    VertCap.init (α := ℚ) ⟨0, 0, 0⟩ 0 { radius := some (1/2) } =
      Except.error Err.attributeError ∧
    VertCap.init (α := ℚ) ⟨0, 0, 0⟩ 0 { } = Except.error Err.attributeError ∧
    VertCap.init (α := ℚ) ⟨0, 0, 0⟩ 0 { radius := some (1/2), inside_radius := some (1/10) } =
      Except.error Err.attributeError :=
  ⟨rfl, rfl, rfl⟩

/-- C5: width and height do default as claimed (width_2 = 0.1, height_2 =
width_2), but the dist default is the Python statement self.dist = 0,25,
i.e. the tuple (0, 25), not the float 0.25; consequently a build with
dist unset dies with a TypeError at self.dist * scale in create_profile. -/
theorem c5_default_dist_is_tuple :
    ∃ vc : VertCap ℚ,
      VertCap.init (α := ℚ) ⟨0, 0, 0⟩ 0
          { inside_radius := some (1/10), outside_radius := some (1/10) } =
        Except.ok vc ∧
      vc.width_2 = 1/10 ∧ vc.height_2 = 1/10 ∧ vc.dist = PyNum.pair 0 25 ∧
      WireSkin.create_mesh QOps
          (WireSkin.init fixSeg
            { inside_radius := some (1/10), outside_radius := some (1/10) }) =
        Except.error Err.typeError :=
  ⟨_, rfl, rfl, rfl, rfl, by with_unfolding_all decide⟩

/-- C4: the claim says a vertex whose averaged incident direction vave is
below the 1e-7 threshold degrades gracefully and the build never aborts.
In the source such a cap returns from create_pole_verts with normal still
None, and reorder_edge_verts then evaluates None.cross, so the whole
build aborts with AttributeError. The first conjunct checks that the
middle vertex of the straight-line wireframe really has vave of magnitude
below the threshold after edge registration; the second runs the full
build and observes the abort. -/
theorem c4_degenerate_vave_aborts_build :
    (match WireSkin.initCaps 0 fixKw fixLine.verts with
     | Except.ok caps0 =>
       match WireSkin.addEdges QOps fixLine.verts 0 fixLine.edges caps0 with
       | Except.ok caps =>
         match caps.get? 0 with
         | some c0 =>
           decide (V3.magnitude QOps
              (VertCap.diff_average (VertCap.poleDiffs QOps c0)) ≤ 1 / 10000000)
         | none => false
       | Except.error _ => false
     | Except.error _ => false) = true ∧
    WireSkin.create_mesh QOps (WireSkin.init fixLine fixKw) =
      Except.error Err.attributeError := by
  with_unfolding_all decide

/-- C6: pole direction. For a nonempty cap of degree below 3 with
non-degenerate vave, the stored normal is the negated normalized vave;
for degree at least 3 it is the negated normalized least-squares plane
normal; and inside the plane fit, when the largest 2x2 minor determinant
magnitude is below 1e-5 the fit is abandoned and the raw centroid vector
vave is returned. -/
theorem c6_pole_direction_rule (F : FloatOps α) (vc : VertCap α) (bm : BM α) :
    (vc.input_edge_verts.length ≠ 0 → vc.input_edge_verts.length < 3 →
      V3.magnitude F (VertCap.diff_average (VertCap.poleDiffs F vc)) > 1 / 10000000 →
      ((VertCap.create_pole_verts F vc bm).1).normal =
        some (V3.neg (V3.normalized F (VertCap.diff_average (VertCap.poleDiffs F vc))))) ∧
    (3 ≤ vc.input_edge_verts.length →
      V3.magnitude F (VertCap.diff_average (VertCap.poleDiffs F vc)) > 1 / 10000000 →
      ((VertCap.create_pole_verts F vc bm).1).normal =
        some (V3.neg (V3.normalized F
          (VertCap.least_squares_normal
            (VertCap.diff_average (VertCap.poleDiffs F vc)) (VertCap.poleDiffs F vc))))) ∧
    (∀ (vave : V3 α) (diffs : List (V3 α)),
      VertCap.lsqDetMax vave diffs < 1 / 100000 →
      VertCap.least_squares_normal vave diffs = vave) := by
  refine ⟨?_, ?_, ?_⟩
  · intro h0 h3 hm
    simp only [VertCap.create_pole_verts, if_neg h0, if_pos hm, if_pos h3, BM.newVert]
    by_cases hg : vc.input_edge_verts.length > 1 <;> simp [hg]
  · intro h3 hm
    have h0 : vc.input_edge_verts.length ≠ 0 := by omega
    have h3n : ¬ vc.input_edge_verts.length < 3 := by omega
    simp only [VertCap.create_pole_verts, if_neg h0, if_pos hm, if_neg h3n, BM.newVert]
    by_cases hg : vc.input_edge_verts.length > 1 <;> simp [hg]
  · intro vave diffs hd
    rcases hcov : VertCap.covAccum vave diffs with ⟨xx, xy, xz, yy, yz, zz⟩
    simp only [VertCap.lsqDetMax, hcov] at hd
    simp only [VertCap.least_squares_normal, hcov, if_pos hd]

/-- Witness for C6: the three branches at concrete caps over the
rationals. -/
theorem c6_witness :
    ((VertCap.create_pole_verts QOps fixCap1 BM.empty).1).normal =
      some (V3.neg (V3.normalized QOps
        (VertCap.diff_average (VertCap.poleDiffs QOps fixCap1)))) ∧
    ((VertCap.create_pole_verts QOps fixCap3 BM.empty).1).normal =
      some (V3.neg (V3.normalized QOps
        (VertCap.least_squares_normal
          (VertCap.diff_average (VertCap.poleDiffs QOps fixCap3))
          (VertCap.poleDiffs QOps fixCap3)))) ∧
    VertCap.least_squares_normal (⟨1, 0, 0⟩ : V3 ℚ) [] = ⟨1, 0, 0⟩ :=
  ⟨(c6_pole_direction_rule QOps fixCap1 BM.empty).1 (by decide) (by decide)
      (by with_unfolding_all decide),
   (c6_pole_direction_rule QOps fixCap3 BM.empty).2.1 (by decide)
      (by with_unfolding_all decide),
   (c6_pole_direction_rule QOps fixCap1 BM.empty).2.2 ⟨1, 0, 0⟩ []
      (by with_unfolding_all decide)⟩

theorem stampFold (c : α) (l : List (Nat × Nat)) (bm : BM α) :
    l.foldl (fun b e => BM.stampCrease b e c) bm =
      { bm with creases := bm.creases ++ l.map (fun e => (e, c)) } := by
  induction l generalizing bm with
  | nil => simp
  | cons e rest ih =>
    rw [List.foldl_cons, ih]
    simp [BM.stampCrease, List.append_assoc]

theorem capsCrease_out (c : α) (caps : List (VertCap α)) (bm : BM α)
    (hc : ∀ vc ∈ caps, vc.crease = some c) :
    WireSkin.capsCrease caps bm =
      Except.ok { bm with creases := bm.creases ++ (caps.map (capStamp c)).flatten } := by
  induction caps generalizing bm with
  | nil => simp [WireSkin.capsCrease]
  | cons vc rest ih =>
    have hvc : vc.crease = some c := hc vc (List.mem_cons_self vc rest)
    simp only [WireSkin.capsCrease, VertCap.crease_edges, hvc, stampFold]
    rw [ih _ (fun v hv => hc v (List.mem_cons_of_mem vc hv))]
    simp [capStamp, List.append_assoc]

theorem pcsCrease_out (pcs : List (ProfileConnector α)) (bm : BM α) :
    WireSkin.pcsCrease pcs bm =
      { bm with creases := bm.creases ++ (pcs.map pcStamp).flatten } := by
  induction pcs generalizing bm with
  | nil => simp [WireSkin.pcsCrease]
  | cons pc rest ih =>
    simp only [WireSkin.pcsCrease, ProfileConnector.crease_edges, stampFold, ih]
    simp [pcStamp, List.append_assoc]

/-- C8: with a crease value configured, the crease phase writes each
VertexCap's configured value onto all of its recorded edges, while every
ProfileConnector writes the constant 1.0 regardless of its configured
value. -/
theorem c8_crease_stamping (c : α) (caps : List (VertCap α))
    (pcs : List (ProfileConnector α)) (bm : BM α)
    (hc : ∀ vc ∈ caps, vc.crease = some c) :
    WireSkin.creasePhase true caps pcs bm =
      Except.ok { bm with creases :=
        bm.creases ++ ((caps.map (capStamp c)).flatten ++ (pcs.map pcStamp).flatten) } := by
  simp only [WireSkin.creasePhase, if_pos rfl, capsCrease_out c caps bm hc, pcsCrease_out]
  simp [List.append_assoc]

theorem len4_explicit {β : Type} (l : List β) (h : l.length = 4) :
    ∃ a b c d, l = [a, b, c, d] := by
  rcases l with _ | ⟨a, _ | ⟨b, _ | ⟨c, _ | ⟨d, _ | ⟨e, t⟩⟩⟩⟩⟩ <;> simp_all

theorem getq_len4 {β : Type} (l : List β) (d : β) (h : l.length = 4) (k : Nat)
    (hk : k < 4) : l.get? k = some (l.getD k d) := by
  have hkl : k < l.length := by omega
  rw [List.get?_eq_getElem?, List.getElem?_eq_getElem hkl, List.getD_eq_getElem l d hkl]

theorem emod4_toNat_lt (x : Int) : (x % 4).toNat < 4 := by omega

theorem vertPos_lt (bm : BM α) (id : Nat) (h : id < bm.verts.length) :
    bm.vertPos id = some (posD bm id) := by
  unfold BM.vertPos posD
  rw [List.get?_eq_getElem?, List.getElem?_eq_getElem h, List.getD_eq_getElem _ _ h]

/-- Shape facts about the slot quads, checked by evaluation over all
min_i and direction cases: four quads, each of four slots below 8, and
every slot index lies on exactly two of the four quads. -/
theorem slotFaces_facts :
    ∀ (m : Fin 4) (fw : Bool),
      (slotFaces (m : Nat) fw).length = 4 ∧
      (∀ f ∈ slotFaces (m : Nat) fw, f.length = 4 ∧ ∀ k ∈ f, k < 8) ∧
      (∀ k : Fin 8, (slotFaces (m : Nat) fw).countP (fun f => decide ((k : Nat) ∈ f)) = 2) := by
  decide

/-- The faces loop of join_profiles appends exactly the slot quads read
through the two profile loops. -/
theorem join_go_faces (loop0 loop1 : List Nat) (h0 : loop0.length = 4)
    (h1 : loop1.length = 4) (min_i min_i2 : Nat) (mult : Int) :
    ∀ (idxs : List Nat), (∀ i ∈ idxs, i < 4) →
    ∀ (pc : ProfileConnector α) (bm : BM α),
      ∃ pc2, ProfileConnector.join_go loop0 loop1 min_i min_i2 mult idxs pc bm =
        Except.ok (pc2, { bm with
          faces := bm.faces ++ idxs.map (fun idx =>
            (slotRow min_i min_i2 mult idx).map (fun k => (loop0 ++ loop1).getD k 0)) }) := by
  intro idxs
  induction idxs with
  | nil =>
    intro _ pc bm
    exact ⟨pc, by simp [ProfileConnector.join_go]⟩
  | cons idx rest ih =>
    intro hb pc bm
    have hidx : idx < 4 := hb idx (List.mem_cons_self _ _)
    have hidx1 : (idx + 1) % 4 < 4 := Nat.mod_lt _ (by norm_num)
    have happ0 : ∀ k, k < 4 → (loop0 ++ loop1).getD k 0 = loop0.getD k 0 := by
      intro k hk
      exact List.getD_append _ _ _ _ (by omega)
    have happ1 : ∀ k, (loop0 ++ loop1).getD (4 + k) 0 = loop1.getD k 0 := by
      intro k
      rw [List.getD_append_right _ _ _ _ (by omega), h0]
      congr 1
      omega
    simp only [ProfileConnector.join_go, getq_len4 loop0 0 h0 idx hidx,
      getq_len4 loop0 0 h0 _ hidx1, getq_len4 loop1 0 h1 _ (emod4_toNat_lt _)]
    obtain ⟨pc2, hrec⟩ := ih (fun i hi => hb i (List.mem_cons_of_mem _ hi))
      (if pc.crease.isSome = true then
        { pc with creased_edges := pc.creased_edges ++
            [(loop0.getD ((idx + 1) % 4) 0,
              loop1.getD ((((min_i2 : Int) + mult * (idx : Int)) % 4).toNat) 0)] }
       else pc)
      (bm.newFace [loop0.getD idx 0, loop0.getD ((idx + 1) % 4) 0,
        loop1.getD ((((min_i2 : Int) + mult * (idx : Int)) % 4).toNat) 0,
        loop1.getD ((((min_i : Int) + mult * (idx : Int)) % 4).toNat) 0])
    rw [hrec]
    refine ⟨pc2, ?_⟩
    simp only [BM.newFace, slotRow, List.map_cons, List.map_nil,
      happ0 idx hidx, happ0 _ hidx1, happ1]
    simp [List.append_assoc]

/-- Each profile vertex, being one of eight distinct mesh vertices, lies
on exactly two of the four quads of any slot pattern. -/
theorem slot_count_transfer (loop0 loop1 : List Nat) (h0 : loop0.length = 4)
    (h1 : loop1.length = 4) (hnd : (loop0 ++ loop1).Nodup) (m : Nat) (hm : m < 4)
    (fw : Bool) :
    ∀ id ∈ loop0 ++ loop1,
      ((slotFaces m fw).map (fun f => f.map (fun k => (loop0 ++ loop1).getD k 0))).countP
        (fun f => decide (id ∈ f)) = 2 := by
  intro id hid
  have hlen : (loop0 ++ loop1).length = 8 := by simp [h0, h1]
  obtain ⟨k0, hk0, hk0v⟩ := List.mem_iff_getElem.mp hid
  have hk08 : k0 < 8 := by omega
  have hfacts := slotFaces_facts ⟨m, hm⟩ fw
  rw [List.countP_map]
  rw [List.countP_congr (q := fun f => decide (k0 ∈ f)) ?_]
  · exact hfacts.2.2 ⟨k0, hk08⟩
  · intro f hf
    have hshape := (hfacts.2.1 f hf).2
    simp only [Function.comp_apply, decide_eq_true_eq]
    constructor
    · intro hmem
      obtain ⟨k, hkf, hkeq⟩ := List.mem_map.mp hmem
      have hk8 : k < 8 := hshape k hkf
      have : (loop0 ++ loop1)[k] = (loop0 ++ loop1)[k0] := by
        rw [← List.getD_eq_getElem _ 0 (by omega), hkeq, hk0v]
      have hkk0 : k = k0 := ((List.Nodup.getElem_inj_iff hnd).mp this)
      rwa [hkk0] at hkf
    · intro hk0f
      refine List.mem_map.mpr ⟨k0, hk0f, ?_⟩
      rw [List.getD_eq_getElem _ 0 (by omega), hk0v]

theorem minGo_min (l : List α) (m : α) (mi i : Nat) :
    (minGo (fun a b => decide (a < b)) l m mi i).1 ≤ m ∧
    ∀ b ∈ l, (minGo (fun a b => decide (a < b)) l m mi i).1 ≤ b := by
  induction l generalizing m mi i with
  | nil => exact ⟨le_rfl, by simp⟩
  | cons b rest ih =>
    simp only [minGo]
    by_cases h : b < m
    · rw [if_pos (by simpa)]
      obtain ⟨hm, hall⟩ := ih b i (i + 1)
      refine ⟨le_trans hm (le_of_lt h), ?_⟩
      intro c hc
      rcases List.mem_cons.mp hc with rfl | hc
      · exact hm
      · exact hall c hc
    · rw [if_neg (by simpa using h)]
      obtain ⟨hm, hall⟩ := ih m mi (i + 1)
      refine ⟨hm, ?_⟩
      intro c hc
      rcases List.mem_cons.mp hc with rfl | hc
      · exact le_trans hm (le_of_not_lt h)
      · exact hall c hc

theorem minGo_cases (lt : α → α → Bool) (l : List α) (m : α) (mi i : Nat) :
    minGo lt l m mi i = (m, mi) ∨
    ∃ k, ∃ hk : k < l.length, minGo lt l m mi i = (l[k], i + k) := by
  induction l generalizing m mi i with
  | nil => exact Or.inl rfl
  | cons b rest ih =>
    simp only [minGo]
    by_cases h : lt b m = true
    · rw [if_pos h]
      rcases ih b i (i + 1) with heq | ⟨k, hk, heq⟩
      · exact Or.inr ⟨0, by simp, by simpa using heq⟩
      · refine Or.inr ⟨k + 1, by simpa using hk, ?_⟩
        rw [heq]
        simp only [List.getElem_cons_succ]
        congr 1
        omega
    · rw [if_neg h]
      rcases ih m mi (i + 1) with heq | ⟨k, hk, heq⟩
      · exact Or.inl heq
      · refine Or.inr ⟨k + 1, by simpa using hk, ?_⟩
        rw [heq]
        simp only [List.getElem_cons_succ]
        congr 1
        omega

/-- The first-wins running-minimum scan over four lengths: the result is
attained at its index and below every entry. -/
theorem runMin4 (l0 l1 l2 l3 : α) :
    ∃ m mi, runMin (fun a b => decide (a < b)) [l0, l1, l2, l3] = some (m, mi) ∧
      mi < 4 ∧ [l0, l1, l2, l3].getD mi 0 = m ∧
      ∀ k, k < 4 → m ≤ [l0, l1, l2, l3].getD k 0 := by
  have hmin := minGo_min [l1, l2, l3] l0 0 1
  have hca := minGo_cases (fun a b => decide (a < b)) [l1, l2, l3] l0 0 1
  rcases hmg : minGo (fun a b => decide (a < b)) [l1, l2, l3] l0 0 1 with ⟨m, mi⟩
  rw [hmg] at hmin hca
  have hle : ∀ k, k < 4 → m ≤ [l0, l1, l2, l3].getD k 0 := by
    intro k hk
    interval_cases k
    · exact hmin.1
    · exact hmin.2 l1 (by simp)
    · exact hmin.2 l2 (by simp)
    · exact hmin.2 l3 (by simp)
  refine ⟨m, mi, by simp only [runMin]; rw [hmg], ?_, ?_, hle⟩
  · rcases hca with heq | ⟨k, hk, heq⟩
    · simp only [Prod.mk.injEq] at heq
      omega
    · simp only [List.length_cons, List.length_nil, Prod.mk.injEq] at hk heq
      omega
  · rcases hca with heq | ⟨k, hk, heq⟩
    · simp only [Prod.mk.injEq] at heq
      obtain ⟨rfl, rfl⟩ := heq
      rfl
    · simp only [List.length_cons, List.length_nil] at hk
      simp only [Prod.mk.injEq] at heq
      obtain ⟨hm, hmi⟩ := heq
      interval_cases k <;> simp_all <;> rfl

/-- C2: for a wireframe edge whose two endpoint caps hold length-4
profile loops of distinct mesh vertices, join_profiles succeeds and
emits exactly 4 quad faces; min_i indexes a loop1 vertex of minimal
distance to loop0[0]; the winding multiplier and min_i2 are picked by
comparing the distances of loop1[(min_i+1) mod 4] and
loop1[(min_i-1) mod 4] to loop0[1]; quad idx is (loop0[idx],
loop0[(idx+1) mod 4], loop1[(min_i2 + mult*idx) mod 4],
loop1[(min_i + mult*idx) mod 4]) (the slotFaces table); and the wall is
a closed loop: each of the 8 profile vertices lies on exactly 2 quads. -/
theorem c2_connector_wall (F : FloatOps α) (pc : ProfileConnector α)
    (caps : List (VertCap α)) (bm : BM α) (vc0 vc1 : VertCap α)
    (loop0 loop1 : List Nat)
    (hc0 : caps.get? pc.edgeV.1 = some vc0)
    (hc1 : caps.get? pc.edgeV.2 = some vc1)
    (hm0 : assocGet vc0.edge_profile_map pc.edgeIdx = some loop0)
    (hm1 : assocGet vc1.edge_profile_map pc.edgeIdx = some loop1)
    (h0 : loop0.length = 4) (h1 : loop1.length = 4)
    (hv : ∀ id ∈ loop0 ++ loop1, id < bm.verts.length)
    (hnd : (loop0 ++ loop1).Nodup) :
    ∃ pc2 bm2 min_i fw,
      ProfileConnector.join_profiles F pc caps bm = Except.ok (pc2, bm2) ∧
      min_i < 4 ∧
      (∀ k, k < 4 →
        c2dist F bm (loop0.getD 0 0) (loop1.getD min_i 0) ≤
          c2dist F bm (loop0.getD 0 0) (loop1.getD k 0)) ∧
      fw = decide (c2dist F bm (loop1.getD ((min_i + 1) % 4) 0) (loop0.getD 1 0) <
        c2dist F bm (loop1.getD ((((min_i : Int) - 1) % 4).toNat) 0) (loop0.getD 1 0)) ∧
      bm2.faces = bm.faces ++
        (slotFaces min_i fw).map (fun f => f.map (fun k => (loop0 ++ loop1).getD k 0)) ∧
      ((slotFaces min_i fw).map (fun f => f.map (fun k => (loop0 ++ loop1).getD k 0))).length
        = 4 ∧
      (∀ f ∈ (slotFaces min_i fw).map (fun f => f.map (fun k => (loop0 ++ loop1).getD k 0)),
        f.length = 4) ∧
      (∀ id ∈ loop0 ++ loop1,
        ((slotFaces min_i fw).map (fun f => f.map (fun k => (loop0 ++ loop1).getD k 0))).countP
          (fun f => decide (id ∈ f)) = 2) := by
  obtain ⟨a0, a1, a2, a3, rfl⟩ := len4_explicit loop0 h0
  obtain ⟨b0, b1, b2, b3, rfl⟩ := len4_explicit loop1 h1
  have la0 : a0 < bm.verts.length := hv a0 (by simp)
  have la1 : a1 < bm.verts.length := hv a1 (by simp)
  have lb0 : b0 < bm.verts.length := hv b0 (by simp)
  have lb1 : b1 < bm.verts.length := hv b1 (by simp)
  have lb2 : b2 < bm.verts.length := hv b2 (by simp)
  have lb3 : b3 < bm.verts.length := hv b3 (by simp)
  have hvl : ∀ k, k < 4 →
      ([posD bm b0, posD bm b1, posD bm b2, posD bm b3].getD k V3.zero) =
        posD bm ([b0, b1, b2, b3].getD k 0) := by
    intro k hk
    interval_cases k <;> rfl
  have hLk : ∀ j, j < 4 →
      c2dist F bm a0 ([b0, b1, b2, b3].getD j 0) =
        [V3.magnitude F (posD bm a0 - posD bm b0), V3.magnitude F (posD bm a0 - posD bm b1),
         V3.magnitude F (posD bm a0 - posD bm b2),
         V3.magnitude F (posD bm a0 - posD bm b3)].getD j 0 := by
    intro j hj
    interval_cases j <;> simp [c2dist]
  simp only [ProfileConnector.join_profiles, hc0, hc1, VertCap.get_edge_profile, hm0, hm1,
    ProfileConnector.vertsOf, vertPos_lt bm a0 la0, vertPos_lt bm a1 la1,
    vertPos_lt bm b0 lb0, vertPos_lt bm b1 lb1, vertPos_lt bm b2 lb2, vertPos_lt bm b3 lb3,
    List.get?, List.map_cons, List.map_nil]
  obtain ⟨m, mi, hrm, hmi4, hval, hmin⟩ := runMin4
    (V3.magnitude F (posD bm a0 - posD bm b0)) (V3.magnitude F (posD bm a0 - posD bm b1))
    (V3.magnitude F (posD bm a0 - posD bm b2)) (V3.magnitude F (posD bm a0 - posD bm b3))
  rw [hrm]
  dsimp only
  rw [getq_len4 _ V3.zero (by rfl) ((mi + 1) % 4) (Nat.mod_lt _ (by norm_num)),
      getq_len4 _ V3.zero (by rfl) ((((mi : Int) - 1) % 4).toNat) (emod4_toNat_lt _),
      hvl _ (Nat.mod_lt _ (by norm_num)), hvl _ (emod4_toNat_lt _)]
  have hmindist : ∀ k, k < 4 →
      c2dist F bm ([a0, a1, a2, a3].getD 0 0) ([b0, b1, b2, b3].getD mi 0) ≤
        c2dist F bm ([a0, a1, a2, a3].getD 0 0) ([b0, b1, b2, b3].getD k 0) := by
    intro k hk
    have hg : [a0, a1, a2, a3].getD 0 0 = a0 := rfl
    rw [hg, hLk mi hmi4, hLk k hk, hval]
    exact hmin k hk
  have hcount := slot_count_transfer [a0, a1, a2, a3] [b0, b1, b2, b3] h0 h1 hnd mi hmi4
  have hfacts : ∀ fw : Bool, (slotFaces mi fw).length = 4 ∧
      (∀ f ∈ slotFaces mi fw, f.length = 4 ∧ ∀ k ∈ f, k < 8) := by
    intro fw
    exact ⟨(slotFaces_facts ⟨mi, hmi4⟩ fw).1, (slotFaces_facts ⟨mi, hmi4⟩ fw).2.1⟩
  dsimp only
  split_ifs with hfw
  · obtain ⟨pc2, hjg⟩ := join_go_faces [a0, a1, a2, a3] [b0, b1, b2, b3] h0 h1
      mi ((mi + 1) % 4) 1 (List.range 4) (by intro i hi; simp at hi; omega) pc bm
    refine ⟨pc2, _, mi, true, hjg, hmi4, hmindist, ?_, ?_, ?_, ?_, hcount true⟩
    · simp only [c2dist]
      rw [eq_comm, decide_eq_true_iff]
      exact hfw
    · simp only [slotFaces, if_pos rfl, List.map_map]
      rfl
    · simp [(hfacts true).1]
    · intro f hf
      obtain ⟨f1, hf1, rfl⟩ := List.mem_map.mp hf
      simp [((hfacts true).2 f1 (by simpa [slotFaces] using hf1)).1]
  · obtain ⟨pc2, hjg⟩ := join_go_faces [a0, a1, a2, a3] [b0, b1, b2, b3] h0 h1
      mi ((((mi : Int) - 1) % 4).toNat) (-1) (List.range 4)
      (by intro i hi; simp at hi; omega) pc bm
    refine ⟨pc2, _, mi, false, hjg, hmi4, hmindist, ?_, ?_, ?_, ?_, hcount false⟩
    · simp only [c2dist]
      rw [eq_comm, decide_eq_false_iff_not]
      exact hfw
    · simp only [slotFaces, Bool.false_eq_true, if_neg, List.map_map]
      rfl
    · simp [(hfacts false).1]
    · intro f hf
      obtain ⟨f1, hf1, rfl⟩ := List.mem_map.mp hf
      simp [((hfacts false).2 f1 (by simpa [slotFaces] using hf1)).1]

/-- Witness for C2 at the concrete eight-vertex fixture. -/
theorem c2_witness :
    ∃ pc2 bm2 min_i fw,
      ProfileConnector.join_profiles QOps fixPcJoin [fixCapL0, fixCapL1] fixBM8 =
        Except.ok (pc2, bm2) ∧
      min_i < 4 ∧
      (∀ k, k < 4 →
        c2dist QOps fixBM8 (([0, 1, 2, 3] : List Nat).getD 0 0)
            (([4, 5, 6, 7] : List Nat).getD min_i 0) ≤
          c2dist QOps fixBM8 (([0, 1, 2, 3] : List Nat).getD 0 0)
            (([4, 5, 6, 7] : List Nat).getD k 0)) ∧
      fw = decide
        (c2dist QOps fixBM8 (([4, 5, 6, 7] : List Nat).getD ((min_i + 1) % 4) 0)
            (([0, 1, 2, 3] : List Nat).getD 1 0) <
          c2dist QOps fixBM8
            (([4, 5, 6, 7] : List Nat).getD ((((min_i : Int) - 1) % 4).toNat) 0)
            (([0, 1, 2, 3] : List Nat).getD 1 0)) ∧
      bm2.faces = fixBM8.faces ++
        (slotFaces min_i fw).map (fun f => f.map
          (fun k => (([0, 1, 2, 3] : List Nat) ++ [4, 5, 6, 7]).getD k 0)) ∧
      ((slotFaces min_i fw).map (fun f => f.map
          (fun k => (([0, 1, 2, 3] : List Nat) ++ [4, 5, 6, 7]).getD k 0))).length = 4 ∧
      (∀ f ∈ (slotFaces min_i fw).map (fun f => f.map
          (fun k => (([0, 1, 2, 3] : List Nat) ++ [4, 5, 6, 7]).getD k 0)), f.length = 4) ∧
      (∀ id ∈ ([0, 1, 2, 3] : List Nat) ++ [4, 5, 6, 7],
        ((slotFaces min_i fw).map (fun f => f.map
            (fun k => (([0, 1, 2, 3] : List Nat) ++ [4, 5, 6, 7]).getD k 0))).countP
          (fun f => decide (id ∈ f)) = 2) :=
  c2_connector_wall QOps fixPcJoin [fixCapL0, fixCapL1] fixBM8 fixCapL0 fixCapL1
    [0, 1, 2, 3] [4, 5, 6, 7] rfl rfl rfl rfl rfl rfl (by decide) (by decide)

/-- Witness for C8: over the rationals, the cap's edge is stamped with the
configured 1/2 while the connector's edge is stamped 1.0 although its
configured value is 1/3. -/
theorem c8_witness :
    WireSkin.creasePhase true [fixCapCr] [fixPcCr] (BM.empty (α := ℚ)) =
      Except.ok ⟨[], [], [((0, 1), 1/2), ((2, 3), 1)], 0⟩ := by
  rw [c8_crease_stamping (1/2) [fixCapCr] [fixPcCr] BM.empty
    (by intro vc hv; rw [List.mem_singleton.mp hv]; rfl)]
  rfl

theorem initCaps_spec (gen : Nat) (kw : Kwargs α) :
    ∀ (vs : List (V3 α)) (caps : List (VertCap α)),
      WireSkin.initCaps gen kw vs = Except.ok caps →
      caps.length = vs.length ∧ ∀ c ∈ caps, freshCap c ∧ c.bm_gen = gen := by
  intro vs
  induction vs with
  | nil =>
    intro caps h
    simp only [WireSkin.initCaps] at h
    cases h
    simp
  | cons v rest ih =>
    intro caps h
    simp only [WireSkin.initCaps] at h
    cases hi : VertCap.init v gen kw with
    | error e => rw [hi] at h; cases h
    | ok c =>
      rw [hi] at h
      cases hr : WireSkin.initCaps gen kw rest with
      | error e => rw [hr] at h; cases h
      | ok cs =>
        rw [hr] at h
        cases h
        obtain ⟨hlen, hall⟩ := ih cs hr
        refine ⟨by simp [hlen], ?_⟩
        intro c2 hc2
        rcases List.mem_cons.mp hc2 with rfl | hc2
        · -- init always returns a fresh cap
          simp only [VertCap.init] at hi
          cases hir : kw.inside_radius with
          | none => rw [hir] at hi; cases hi
          | some ir =>
            rw [hir] at hi
            cases hor : kw.outside_radius with
            | none => rw [hor] at hi; cases hi
            | some oor =>
              rw [hor] at hi
              cases hi
              exact ⟨⟨rfl, rfl, rfl, rfl, rfl⟩, rfl⟩
        · exact hall c2 hc2

theorem incidentIdx_mem (i : Nat) :
    ∀ (es : List (Nat × Nat)) (j x : Nat),
      x ∈ incidentIdx i j es ↔
        ∃ k, ∃ hk : k < es.length, x = j + k ∧ (es[k].1 = i ∨ es[k].2 = i) := by
  intro es
  induction es with
  | nil => simp [incidentIdx]
  | cons e rest ih =>
    intro j x
    simp only [incidentIdx, List.mem_append, ih (j + 1) x]
    constructor
    · rintro (h | ⟨k, hk, rfl, hor⟩)
      · refine ⟨0, by simp, ?_⟩
        rcases h with h1 | h1 <;> split_ifs at h1 <;> simp_all <;> omega
      · exact ⟨k + 1, by simpa using hk, by constructor <;> simp_all <;> omega⟩
    · rintro ⟨k, hk, rfl, hor⟩
      cases k with
      | zero =>
        refine Or.inl ?_
        rcases hor with h1 | h1 <;> simp_all
      | succ k2 =>
        refine Or.inr ⟨k2, by simpa using hk, by constructor <;> simp_all <;> omega⟩

theorem incidentIdx_ge (i : Nat) :
    ∀ (es : List (Nat × Nat)) (j x : Nat), x ∈ incidentIdx i j es → j ≤ x := by
  intro es j x hx
  obtain ⟨k, hk, rfl, _⟩ := (incidentIdx_mem i es j x).mp hx
  omega

theorem incidentIdx_nodup (i : Nat) :
    ∀ (es : List (Nat × Nat)), (∀ e ∈ es, e.1 ≠ e.2) →
      ∀ (j : Nat), (incidentIdx i j es).Nodup := by
  intro es
  induction es with
  | nil => intro _ j; simp [incidentIdx]
  | cons e rest ih =>
    intro hsl j
    have hrest := ih (fun x hx => hsl x (List.mem_cons_of_mem _ hx)) (j + 1)
    have hnotin : j ∉ incidentIdx i (j + 1) rest := by
      intro hmem
      have := incidentIdx_ge i rest (j + 1) j hmem
      omega
    simp only [incidentIdx]
    have hne : e.1 ≠ e.2 := hsl e (List.mem_cons_self _ _)
    by_cases h1 : e.1 = i <;> by_cases h2 : e.2 = i
    · exact absurd (h1.trans h2.symm) hne
    · simpa [h1, h2] using List.Nodup.cons hnotin hrest
    · simpa [h1, h2] using List.Nodup.cons hnotin hrest
    · simpa [h1, h2] using hrest

theorem registerOne_spec (F : FloatOps α) (verts : List (V3 α)) (j this other : Nat)
    (caps caps2 : List (VertCap α))
    (h : WireSkin.registerOne F verts j this other caps = Except.ok caps2) :
    caps2.length = caps.length ∧
    (∀ i, i ≠ this → caps2.get? i = caps.get? i) ∧
    ∃ c ev, caps.get? this = some c ∧ EdgeVert.e ev = j ∧
      caps2.get? this = some { c with input_edge_verts := c.input_edge_verts ++ [ev] } := by
  simp only [WireSkin.registerOne] at h
  cases hv : verts.get? other with
  | none => rw [hv] at h; cases h
  | some ov =>
    rw [hv] at h
    cases hc : caps.get? this with
    | none => rw [hc] at h; cases h
    | some c =>
      rw [hc] at h
      cases h
      have hlt : this < caps.length := by
        by_contra hge
        rw [List.get?_eq_none.mpr (by omega)] at hc
        cases hc
      refine ⟨by simp, ?_,
        c, ⟨ov, other, j, V3.magnitude F (c.input_vert - ov)⟩, rfl, rfl, ?_⟩
      · intro i hi
        exact List.get?_set_ne _ _ (Ne.symm hi)
      · rw [List.get?_set_eq_of_lt _ hlt]
        rfl

theorem addEdges_spec (F : FloatOps α) (verts : List (V3 α)) :
    ∀ (es : List (Nat × Nat)) (j : Nat) (caps caps2 : List (VertCap α)),
      WireSkin.addEdges F verts j es caps = Except.ok caps2 →
      caps2.length = caps.length ∧
      ∀ i, i < caps.length →
        ∃ c c2, caps.get? i = some c ∧ caps2.get? i = some c2 ∧
          c2 = { c with input_edge_verts := c2.input_edge_verts } ∧
          eProj c2.input_edge_verts = eProj c.input_edge_verts ++ incidentIdx i j es := by
  intro es
  induction es with
  | nil =>
    intro j caps caps2 h
    simp only [WireSkin.addEdges] at h
    cases h
    refine ⟨rfl, ?_⟩
    intro i hi
    cases hc : caps.get? i with
    | none =>
      rw [List.get?_eq_none] at hc
      omega
    | some c => exact ⟨c, c, rfl, rfl, rfl, by simp [incidentIdx]⟩
  | cons e rest ih =>
    intro j caps caps2 h
    simp only [WireSkin.addEdges] at h
    cases hr1 : WireSkin.registerOne F verts j e.1 e.2 caps with
    | error err => rw [hr1] at h; cases h
    | ok capsA =>
      simp only [hr1] at h
      cases hr2 : WireSkin.registerOne F verts j e.2 e.1 capsA with
      | error err => rw [hr2] at h; cases h
      | ok capsB =>
        simp only [hr2] at h
        obtain ⟨hlenA, hneA, cA, evA, hgetA, heA, hsetA⟩ := registerOne_spec F verts j e.1 e.2 caps capsA hr1
        obtain ⟨hlenB, hneB, cB, evB, hgetB, heB, hsetB⟩ := registerOne_spec F verts j e.2 e.1 capsA capsB hr2
        obtain ⟨hlen2, hspec⟩ := ih (j + 1) capsB caps2 h
        refine ⟨by omega, ?_⟩
        intro i hi
        have hiB : i < capsB.length := by omega
        obtain ⟨cb, c2, hcb, hc2, hrel, hproj⟩ := hspec i (by omega)
        -- relate cb (the cap in capsB) to the cap in caps
        by_cases h1 : i = e.1 <;> by_cases h2 : i = e.2
        · -- self-loop style: both registrations hit cap i
          subst h1
          rw [← h2] at hgetB hsetB
          rw [hsetA] at hgetB
          cases hgetB
          rw [hsetB] at hcb
          cases hcb
          refine ⟨cA, c2, hgetA, hc2, ?_, ?_⟩
          · rw [hrel]
          · rw [hproj]
            simp only [eProj, incidentIdx, List.map_append, if_pos rfl, ← h2]
            simp [heA, heB, List.append_assoc, h2]
        · subst h1
          have hne21 : ¬ e.2 = e.1 := fun hh => h2 hh.symm
          have hBA : capsA.get? e.1 = some { cA with
              input_edge_verts := cA.input_edge_verts ++ [evA] } := hsetA
          rw [hneB e.1 h2] at hcb
          rw [hBA] at hcb
          cases hcb
          refine ⟨cA, c2, hgetA, hc2, by rw [hrel], ?_⟩
          · rw [hproj]
            simp only [eProj, incidentIdx, List.map_append, if_pos rfl, if_neg hne21]
            simp [heA, List.append_assoc]
        · subst h2
          have hne12 : ¬ e.1 = e.2 := fun hh => h1 hh.symm
          rw [hsetB] at hcb
          cases hcb
          rw [hneA e.2 h1] at hgetB
          refine ⟨cB, c2, hgetB, hc2, by rw [hrel], ?_⟩
          · rw [hproj]
            simp only [eProj, incidentIdx, List.map_append, if_neg hne12, if_pos rfl]
            simp [heB, List.append_assoc]
        · have hne12 : ¬ e.1 = i := fun hh => h1 hh.symm
          have hne21 : ¬ e.2 = i := fun hh => h2 hh.symm
          rw [hneB i h2, hneA i h1] at hcb
          refine ⟨cb, c2, hcb, hc2, hrel, ?_⟩
          · rw [hproj]
            simp only [incidentIdx, if_neg hne12, if_neg hne21]
            simp

theorem assocPut_values_sub {β : Type} (k : α) (v : β) :
    ∀ (l : List (α × β)) (w : β), w ∈ (assocPut l k v).map Prod.snd →
      w = v ∨ w ∈ l.map Prod.snd := by
  intro l
  induction l with
  | nil =>
    intro w hw
    simp only [assocPut, List.map_cons, List.map_nil, List.mem_singleton] at hw
    exact Or.inl hw
  | cons p rest ih =>
    intro w hw
    rcases p with ⟨k1, v1⟩
    simp only [assocPut] at hw
    split_ifs at hw
    · simp only [List.map_cons, List.mem_cons] at hw
      rcases hw with h | h
      · exact Or.inl h
      · exact Or.inr (by simp only [List.map_cons, List.mem_cons]; exact Or.inr h)
    · simp only [List.map_cons, List.mem_cons] at hw
      rcases hw with h | h
      · exact Or.inr (by simp only [List.map_cons, List.mem_cons]; exact Or.inl h)
      · rcases ih w h with h2 | h2
        · exact Or.inl h2
        · exact Or.inr (by simp only [List.map_cons, List.mem_cons]; exact Or.inr h2)

theorem assocPut_length_le {β : Type} (k : α) (v : β) :
    ∀ (l : List (α × β)), (assocPut l k v).length ≤ l.length + 1 := by
  intro l
  induction l with
  | nil => simp [assocPut]
  | cons p rest ih =>
    rcases p with ⟨k1, v1⟩
    simp only [assocPut]
    split_ifs <;> simp <;> omega

theorem assocPut_values_nodupP {β : Type} (proj : β → Nat) (k : α) (v : β) :
    ∀ (l : List (α × β)),
      ((l.map Prod.snd).map proj).Nodup → proj v ∉ (l.map Prod.snd).map proj →
      (((assocPut l k v).map Prod.snd).map proj).Nodup := by
  intro l
  induction l with
  | nil => intro _ _; simp [assocPut]
  | cons p rest ih =>
    rcases p with ⟨k1, v1⟩
    intro hnd hnew
    simp only [List.map_cons, List.nodup_cons] at hnd
    simp only [List.map_cons, List.mem_cons] at hnew
    have hnew1 : proj v ≠ proj v1 := fun hh => hnew (Or.inl hh)
    have hnew2 : proj v ∉ (rest.map Prod.snd).map proj := fun hh => hnew (Or.inr hh)
    simp only [assocPut]
    split_ifs
    · simp only [List.map_cons, List.nodup_cons]
      exact ⟨hnew2, hnd.2⟩
    · simp only [List.map_cons, List.nodup_cons]
      refine ⟨?_, ih hnd.2 hnew2⟩
      intro hmem
      obtain ⟨w, hw, hweq⟩ := List.mem_map.mp hmem
      rcases assocPut_values_sub k v rest w hw with hwe | hw2
      · rw [hwe] at hweq
        exact hnew1 hweq
      · exact hnd.1 (hweq ▸ List.mem_map_of_mem proj hw2)

theorem theta_fold_spec (g : EdgeVert α → α) (proj : EdgeVert α → Nat) :
    ∀ (evs : List (EdgeVert α)) (acc : List (α × EdgeVert α)),
      (∀ w ∈ (evs.foldl (fun a x => assocPut a (g x) x) acc).map Prod.snd,
        w ∈ acc.map Prod.snd ∨ w ∈ evs) ∧
      (evs.foldl (fun a x => assocPut a (g x) x) acc).length ≤
        acc.length + evs.length ∧
      ((((acc.map Prod.snd) ++ evs).map proj).Nodup →
        (((evs.foldl (fun a x => assocPut a (g x) x) acc).map Prod.snd).map proj).Nodup) := by
  intro evs
  induction evs with
  | nil =>
    intro acc
    refine ⟨fun w hw => Or.inl hw, by simp, ?_⟩
    intro h
    simpa using h
  | cons ev rest ih =>
    intro acc
    simp only [List.foldl_cons]
    obtain ⟨ihsub, ihlen, ihnd⟩ := ih (assocPut acc (g ev) ev)
    refine ⟨?_, ?_, ?_⟩
    · intro w hw
      rcases ihsub w hw with hw2 | hw2
      · rcases assocPut_values_sub (g ev) ev acc w hw2 with rfl | hw3
        · exact Or.inr (List.mem_cons_self _ _)
        · exact Or.inl hw3
      · exact Or.inr (List.mem_cons_of_mem _ hw2)
    · have hput := assocPut_length_le (g ev) ev acc
      have := ihlen
      simp only [List.length_cons]
      omega
    · intro hnd
      apply ihnd
      have hnd2 : ((acc.map Prod.snd).map proj ++ (ev :: rest).map proj).Nodup := by
        simpa [List.map_append] using hnd
      have hvnew : proj ev ∉ (acc.map Prod.snd).map proj := by
        intro hmem
        exact List.disjoint_of_nodup_append hnd2 hmem (by simp)
      have hput := assocPut_values_nodupP proj (g ev) ev acc
        (List.Nodup.of_append_left hnd2) hvnew
      rw [List.map_append]
      apply List.Nodup.append hput
      · have hr : ((ev :: rest).map proj).Nodup := List.Nodup.of_append_right hnd2
        exact (List.nodup_cons.mp (by simpa using hr)).2
      · intro x hx hx2
        obtain ⟨w, hw, rfl⟩ := List.mem_map.mp hx
        have hw2 : w ∈ (assocPut acc (g ev) ev).map Prod.snd := by simpa using hw
        rcases assocPut_values_sub (g ev) ev acc w hw2 with hwe | hw3
        · have hr : ((ev :: rest).map proj).Nodup := List.Nodup.of_append_right hnd2
          rw [hwe] at hx2
          exact (List.nodup_cons.mp (by simpa using hr)).1 hx2
        · exact List.disjoint_of_nodup_append hnd2
            (List.mem_map_of_mem proj hw3) (List.mem_cons_of_mem _ hx2)

theorem insLe_perm {β : Type} (le : β → β → Bool) (a : β) :
    ∀ (l : List β), (insLe le a l).Perm (a :: l) := by
  intro l
  induction l with
  | nil => simp [insLe]
  | cons b rest ih =>
    simp only [insLe]
    split_ifs
    · exact List.Perm.refl _
    · exact List.Perm.trans (List.Perm.cons b ih) (List.Perm.swap a b rest)

theorem sortLe_perm {β : Type} (le : β → β → Bool) :
    ∀ (l : List β), (sortLe le l).Perm l := by
  intro l
  induction l with
  | nil => simp [sortLe]
  | cons a rest ih =>
    exact List.Perm.trans (insLe_perm le a _) (List.Perm.cons a ih)

/-- Structural behavior of create_pole_verts on a cap whose normal is
still unset: only normal and poles change; the normal is set exactly when
the pole branch ran, and then the pole count is 2 for degree above 1 and
1 otherwise. -/
theorem cpv_spec (F : FloatOps α) (c : VertCap α) (bm : BM α) (hn : c.normal = none) :
    (VertCap.create_pole_verts F c bm).1 =
      { c with normal := (VertCap.create_pole_verts F c bm).1.normal,
               poles := (VertCap.create_pole_verts F c bm).1.poles } ∧
    ((VertCap.create_pole_verts F c bm).1.normal = none →
      (VertCap.create_pole_verts F c bm).1 = c) ∧
    (∀ n, (VertCap.create_pole_verts F c bm).1.normal = some n →
      (VertCap.create_pole_verts F c bm).1.poles.length =
        c.poles.length + (if c.input_edge_verts.length > 1 then 2 else 1) ∧
      c.input_edge_verts.length ≠ 0) := by
  refine ⟨?_, ?_, ?_⟩
  · simp only [VertCap.create_pole_verts, BM.newVert]
    split_ifs <;> rfl
  · simp only [VertCap.create_pole_verts, BM.newVert]
    split_ifs <;> intro hnone <;>
      first
        | rfl
        | exact hnone.elim
        | cases hnone
  · simp only [VertCap.create_pole_verts, BM.newVert]
    split_ifs <;> intro n hsome <;>
      first
        | (rw [hn] at hsome; cases hsome)
        | exact hsome.elim
        | (refine ⟨?_, by simp_all⟩; simp_all)

/-- Structural behavior of reorder_edge_verts: only input_edge_verts
changes; it is replaced by a selection (first entry plus the values of
the theta dict, sorted) of the original entries, never longer, and with
the edge-index projection staying duplicate-free. Success with degree at
least 2 requires the normal to be set. -/
theorem reorder_spec (F : FloatOps α) (c c2 : VertCap α)
    (h : VertCap.reorder_edge_verts F c = Except.ok c2) :
    c2 = { c with input_edge_verts := c2.input_edge_verts } ∧
    (c.input_edge_verts.length < 2 → c2 = c) ∧
    c2.input_edge_verts.length ≤ c.input_edge_verts.length ∧
    (∀ ev ∈ c2.input_edge_verts, ev ∈ c.input_edge_verts) ∧
    ((eProj c.input_edge_verts).Nodup → (eProj c2.input_edge_verts).Nodup) ∧
    (2 ≤ c.input_edge_verts.length → c.normal ≠ none) := by
  simp only [VertCap.reorder_edge_verts] at h
  split_ifs at h with hlen
  · cases h
    exact ⟨rfl, fun _ => rfl, le_rfl, fun ev hev => hev, fun hh => hh, fun hge => by omega⟩
  · cases hnorm : c.normal with
    | none => rw [hnorm] at h; cases h
    | some to_z =>
      rw [hnorm] at h
      cases hiev : c.input_edge_verts with
      | nil => rw [hiev] at h; cases h
      | cons ev0 evRest =>
        simp only [hiev] at h
        split_ifs at h with hdet
        cases h
        rw [hiev] at hlen
        set mat := M3.inverse (M3.transpose
          ⟨V3.normalized F (V3.cross
              (V3.normalized F (V3.cross to_z (ev0.v - c.input_vert))) to_z),
           V3.normalized F (V3.cross to_z (ev0.v - c.input_vert)), to_z⟩) with hmat
        obtain ⟨hsub, hlenf, hndf⟩ := theta_fold_spec
          (VertCap.thetaKey F mat c.input_vert) (fun ev => ev.e) evRest []
        set pairs := evRest.foldl
          (fun acc ev => assocPut acc (VertCap.thetaKey F mat c.input_vert ev) ev) []
          with hpairs
        have hperm : (sortLe (fun p q => decide (p.1 ≤ q.1)) pairs).Perm pairs :=
          sortLe_perm _ pairs
        have hpermv : ((sortLe (fun p q => decide (p.1 ≤ q.1)) pairs).map Prod.snd).Perm
            (pairs.map Prod.snd) := List.Perm.map Prod.snd hperm
        refine ⟨rfl, fun hcon => absurd hcon hlen, ?_, ?_, ?_, fun _ => by simp [hnorm]⟩
        · simp only [List.length_cons]
          have h1 := hpermv.length_eq
          simp only [List.length_map] at h1
          have h2 := hlenf
          simp only [List.length_nil] at h2
          simp only [List.length_map]
          omega
        · intro ev hev
          rcases List.mem_cons.mp hev with rfl | hev2
          · exact List.mem_cons_self _ _
          · obtain ⟨w, hw, rfl⟩ := List.mem_map.mp hev2
            have hw2 : w.2 ∈ pairs.map Prod.snd :=
              List.mem_map_of_mem Prod.snd (hperm.mem_iff.mp hw)
            rcases hsub w.2 hw2 with hin | hin
            · simp at hin
            · exact List.mem_cons_of_mem _ hin
        · intro hnd
          simp only [eProj, List.map_cons, List.nodup_cons] at hnd ⊢
          obtain ⟨hhead, htail⟩ := hnd
          have hvnd : ((pairs.map Prod.snd).map (fun ev => ev.e)).Nodup :=
            hndf (by simpa using htail)
          have hpermnd : (((sortLe (fun p q => decide (p.1 ≤ q.1)) pairs).map Prod.snd).map
              (fun ev => ev.e)).Nodup := by
            exact (List.Perm.nodup_iff (List.Perm.map _ hpermv)).mpr hvnd
          refine ⟨?_, by simpa using hpermnd⟩
          intro hmem
          simp only [List.mem_map] at hmem
          obtain ⟨w, hw, hweq⟩ := hmem
          have hw2 : w ∈ pairs.map Prod.snd := hpermv.mem_iff.mp (by simpa using hw)
          rcases hsub w hw2 with hin | hin
          · simp at hin
          · exact hhead (by
              simp only [List.mem_map]
              exact ⟨w, hin, hweq⟩)

theorem assocGet_put {β : Type} (k0 k : Nat) (v : β) :
    ∀ (l : List (Nat × β)),
      assocGet (assocPut l k0 v) k = if k = k0 then some v else assocGet l k := by
  intro l
  induction l with
  | nil =>
    simp only [assocPut, assocGet]
    by_cases h : k0 = k
    · rw [if_pos h, if_pos h.symm]
    · rw [if_neg h, if_neg (fun hh => h hh.symm)]
  | cons p rest ih =>
    rcases p with ⟨k1, v1⟩
    simp only [assocPut]
    by_cases h1 : k1 = k0
    · rw [if_pos h1]
      subst h1
      simp only [assocGet]
      by_cases h2 : k1 = k
      · rw [if_pos h2, if_pos h2.symm]
      · rw [if_neg h2, if_neg (fun hh => h2 hh.symm), if_neg h2]
    · rw [if_neg h1]
      simp only [assocGet, ih]
      by_cases h2 : k1 = k <;> by_cases h3 : k = k0
      · exact absurd (h2.trans h3) h1
      · rw [if_pos h2, if_neg h3, if_pos h2]
      · rw [if_neg h2, if_pos h3, if_pos h3]
      · rw [if_neg h2, if_neg h3, if_neg h3, if_neg h2]

/-- emit_profile appends exactly one length-4 profile and binds it to the
edge index; no other cap field changes. -/
theorem emit_profile_fst (vc : VertCap α) (e : Nat) (a b cc d : V3 α) (bm : BM α) :
    ∃ p : List Nat, p.length = 4 ∧
      (VertCap.emit_profile vc e a b cc d bm).1 =
        { vc with profiles := vc.profiles ++ [p],
                  edge_profile_map := assocPut vc.edge_profile_map e p } := by
  refine ⟨[bm.verts.length, (bm.verts ++ [a]).length, (bm.verts ++ [a] ++ [b]).length,
    (bm.verts ++ [a] ++ [b] ++ [cc]).length], by simp, rfl⟩

/-- create_profile appends one length-4 profile and records it in the
edge-to-profile map under the edge vert's edge index; no other cap field
changes. -/
theorem create_profile_spec (F : FloatOps α) (c : VertCap α) (ev : EdgeVert α)
    (onorm : Option (V3 α)) (bm : BM α) (c2 : VertCap α) (bm2 : BM α)
    (h : VertCap.create_profile F c ev onorm bm = Except.ok (c2, bm2)) :
    ∃ p : List Nat, p.length = 4 ∧
      c2 = { c with profiles := c.profiles ++ [p],
                    edge_profile_map := assocPut c.edge_profile_map ev.e p } := by
  cases hcn : c.normal <;> cases ho : onorm <;> cases hd : c.dist <;>
    simp only [VertCap.create_profile, hcn, ho, hd] at h <;>
    repeat (first | split_ifs at h | split at h | dsimp only at h)
  all_goals first
    | exact Except.noConfusion h
    | (injection h with hpair;
       have hfst := congrArg Prod.fst hpair;
       dsimp only at hfst;
       rw [← hfst];
       try rw [← hcn];
       try rw [← hd];
       exact emit_profile_fst _ _ _ _ _ _ _)

/-- The loop of create_profiles: iev, poles, normal untouched; one
profile per edge vert appended; map gains exactly the loop's edge
indices. -/
theorem cpg_spec (F : FloatOps α) (caps : List (VertCap α)) :
    ∀ (evs : List (EdgeVert α)) (c : VertCap α) (bm : BM α) (c2 : VertCap α) (bm2 : BM α),
      VertCap.create_profiles_go F caps evs c bm = Except.ok (c2, bm2) →
      c2 = { c with profiles := c2.profiles, edge_profile_map := c2.edge_profile_map } ∧
      c2.profiles.length = c.profiles.length + evs.length ∧
      (∀ p ∈ c2.profiles, p ∈ c.profiles ∨ p.length = 4) ∧
      (∀ k, (assocGet c2.edge_profile_map k).isSome ↔
        ((assocGet c.edge_profile_map k).isSome ∨ k ∈ evs.map (fun ev => ev.e))) := by
  intro evs
  induction evs with
  | nil =>
    intro c bm c2 bm2 h
    simp only [VertCap.create_profiles_go] at h
    cases h
    exact ⟨rfl, by simp, fun p hp => Or.inl hp, by simp⟩
  | cons ev rest ih =>
    intro c bm c2 bm2 h
    simp only [VertCap.create_profiles_go] at h
    cases hother : caps.get? ev.i with
    | none => rw [hother] at h; cases h
    | some other =>
      simp only [hother] at h
      cases hcp : VertCap.create_profile F c ev other.normal bm with
      | error e => rw [hcp] at h; cases h
      | ok pr =>
        rcases pr with ⟨cMid, bmMid⟩
        simp only [hcp] at h
        obtain ⟨p, hp4, hcm⟩ := create_profile_spec F c ev other.normal bm cMid bmMid hcp
        obtain ⟨ihrel, ihlen, ihmem, ihmap⟩ := ih cMid bmMid c2 bm2 h
        subst hcm
        refine ⟨by rw [ihrel], ?_, ?_, ?_⟩
        · simp only [ihlen]
          simp
          omega
        · intro q hq
          rcases ihmem q hq with hq2 | hq2
          · rcases List.mem_append.mp hq2 with hq3 | hq3
            · exact Or.inl hq3
            · right
              rw [List.mem_singleton.mp hq3]
              exact hp4
          · exact Or.inr hq2
        · intro k
          rw [ihmap k, assocGet_put]
          by_cases hk : k = ev.e <;> simp [hk] <;> tauto

/-- Structural behavior of create_profiles on a cap with a
duplicate-free incident edge-index list. -/
theorem create_profiles_spec (F : FloatOps α) (caps : List (VertCap α))
    (c : VertCap α) (bm : BM α) (c2 : VertCap α) (bm2 : BM α)
    (h : VertCap.create_profiles F caps c bm = Except.ok (c2, bm2))
    (hnd : (eProj c.input_edge_verts).Nodup) :
    c2 = { c with input_edge_verts := c2.input_edge_verts,
                  profiles := c2.profiles, edge_profile_map := c2.edge_profile_map } ∧
    c2.input_edge_verts.length ≤ c.input_edge_verts.length ∧
    (eProj c2.input_edge_verts).Nodup ∧
    (∀ x ∈ eProj c2.input_edge_verts, x ∈ eProj c.input_edge_verts) ∧
    c2.profiles.length = c.profiles.length + c2.input_edge_verts.length ∧
    (∀ p ∈ c2.profiles, p ∈ c.profiles ∨ p.length = 4) ∧
    (∀ k, (assocGet c2.edge_profile_map k).isSome ↔
      ((assocGet c.edge_profile_map k).isSome ∨ k ∈ eProj c2.input_edge_verts)) ∧
    (c.input_edge_verts.length < 2 → c2.input_edge_verts = c.input_edge_verts) ∧
    (2 ≤ c.input_edge_verts.length → c.normal ≠ none) := by
  simp only [VertCap.create_profiles] at h
  split_ifs at h with hempty
  · cases h
    have hiev : c.input_edge_verts = [] := List.length_eq_zero.mp hempty
    refine ⟨rfl, le_rfl, hnd, fun x hx => hx, by simp [hiev], fun p hp => Or.inl hp,
      by simp [hiev, eProj], fun _ => rfl, ?_⟩
    intro hge
    rw [hiev] at hge
    simp at hge
  · cases hre : VertCap.reorder_edge_verts F c with
    | error e => rw [hre] at h; cases h
    | ok cR =>
      simp only [hre] at h
      obtain ⟨hrel, hlt2, hlenR, hmemR, hndR, hnormR⟩ := reorder_spec F c cR hre
      obtain ⟨grel, glen, gmem, gmap⟩ := cpg_spec F caps cR.input_edge_verts cR bm c2 bm2 h
      have hievR : c2.input_edge_verts = cR.input_edge_verts := by rw [grel]
      have hprofR : cR.profiles = c.profiles := by rw [hrel]
      have hmapR : cR.edge_profile_map = c.edge_profile_map := by rw [hrel]
      refine ⟨?_, ?_, ?_, ?_, ?_, ?_, ?_, ?_, hnormR⟩
      · rw [grel, hrel]
      · rw [hievR]; exact hlenR
      · rw [hievR]; exact hndR hnd
      · intro x hx
        rw [hievR] at hx
        simp only [eProj, List.mem_map] at hx ⊢
        obtain ⟨w, hw, rfl⟩ := hx
        exact ⟨w, hmemR w hw, rfl⟩
      · rw [glen, hprofR, hievR]
      · intro p hp
        rcases gmem p hp with hp2 | hp2
        · rw [hprofR] at hp2; exact Or.inl hp2
        · exact Or.inr hp2
      · intro k
        rw [gmap k, hmapR, hievR]
        rfl
      · intro hcon
        rw [hievR, hlt2 hcon]

/-- The registration list has exactly one entry per endpoint slot, so its
length is the degree count (first-endpoint hits plus second-endpoint
hits). -/
theorem incidentIdx_length (i : Nat) :
    ∀ (es : List (Nat × Nat)) (j : Nat),
      (incidentIdx i j es).length =
        (es.filter (fun e => e.1 = i)).length + (es.filter (fun e => e.2 = i)).length := by
  intro es
  induction es with
  | nil => intro j; simp [incidentIdx]
  | cons e rest ih =>
    intro j
    simp only [incidentIdx, List.length_append, ih (j + 1), List.filter_cons]
    by_cases h1 : e.1 = i <;> by_cases h2 : e.2 = i <;> simp [h1, h2] <;> omega

/-- A succeeding checked pole call returns exactly the unguarded
create_pole_verts result. -/
theorem cpv_checked_ok (F : FloatOps α) (c : VertCap α) (bm : BM α)
    (c1 : VertCap α) (bm1 : BM α)
    (h : VertCap.create_pole_verts_checked F c bm = Except.ok (c1, bm1)) :
    (c1, bm1) = VertCap.create_pole_verts F c bm := by
  simp only [VertCap.create_pole_verts_checked] at h
  split_ifs at h with h0 hm hg
  · injection h with hp
    rw [← hp]
    simp [VertCap.create_pole_verts, h0]
  · injection h with hp
    exact hp.symm
  · injection h with hp
    rw [← hp]
    unfold VertCap.create_pole_verts
    rw [if_neg h0, if_neg hm]

/-- create_pole_verts leaves the edge verts and the stored bmesh
generation of the cap unchanged. -/
theorem cpv_keeps (F : FloatOps α) (c : VertCap α) (bm : BM α) :
    (VertCap.create_pole_verts F c bm).1.input_edge_verts = c.input_edge_verts ∧
    (VertCap.create_pole_verts F c bm).1.bm_gen = c.bm_gen := by
  simp only [VertCap.create_pole_verts, BM.newVert]
  split_ifs <;> exact ⟨rfl, rfl⟩

/-- create_pole_verts only appends vertices: the bmesh generation is
untouched. -/
theorem cpv_gen (F : FloatOps α) (c : VertCap α) (bm : BM α) :
    (VertCap.create_pole_verts F c bm).2.gen = bm.gen := by
  simp only [VertCap.create_pole_verts, BM.newVert]
  split_ifs <;> rfl

/-- The pole phase, when it succeeds, maps each cap through
create_pole_verts at some intermediate bmesh state of the same build. -/
theorem polesPhase_spec (F : FloatOps α) :
    ∀ (caps : List (VertCap α)) (bm : BM α) (caps2 : List (VertCap α)) (bm2 : BM α),
      WireSkin.polesPhase F caps bm = Except.ok (caps2, bm2) →
      caps2.length = caps.length ∧ bm2.gen = bm.gen ∧
      ∀ i, i < caps.length →
        ∃ c bmIn, caps.get? i = some c ∧ bmIn.gen = bm.gen ∧
          caps2.get? i = some (VertCap.create_pole_verts F c bmIn).1 := by
  intro caps
  induction caps with
  | nil =>
    intro bm caps2 bm2 h
    simp only [WireSkin.polesPhase] at h
    cases h
    exact ⟨rfl, rfl, fun i hi => absurd hi (by simp)⟩
  | cons c rest ih =>
    intro bm caps2 bm2 h
    simp only [WireSkin.polesPhase] at h
    cases hcp : VertCap.create_pole_verts_checked F c bm with
    | error e => rw [hcp] at h; cases h
    | ok pr =>
      rcases pr with ⟨c1, bm1⟩
      simp only [hcp] at h
      cases hrest : WireSkin.polesPhase F rest bm1 with
      | error e => rw [hrest] at h; cases h
      | ok prr =>
        rcases prr with ⟨cs, bmr⟩
        simp only [hrest] at h
        injection h with hpair
        injection hpair with hcs hbm
        obtain ⟨ihlen, ihgen, ihspec⟩ := ih bm1 cs bmr hrest
        have hval := cpv_checked_ok F c bm c1 bm1 hcp
        have hbm1 : bm1.gen = bm.gen := by
          have := congrArg (fun pr => pr.2.gen) hval
          simp only at this
          rw [this, cpv_gen]
        refine ⟨by rw [← hcs]; simp [ihlen], by rw [← hbm]; omega, ?_⟩
        intro i hi
        cases i with
        | zero =>
          refine ⟨c, bm, rfl, rfl, ?_⟩
          rw [← hcs]
          have := congrArg (fun pr => pr.1) hval
          simp only at this
          rw [List.get?_cons_zero, this]
        | succ k =>
          obtain ⟨c', bmIn, hc', hgIn, hg⟩ := ihspec k (by simpa using hi)
          refine ⟨c', bmIn, hc', by omega, ?_⟩
          rw [← hcs]
          simpa using hg

/-- A successful create_profile wrote through the stored bmesh reference,
so the cap's generation matches the bmesh it wrote into. -/
theorem cp_needs_gen (F : FloatOps α) (vc : VertCap α) (ev : EdgeVert α)
    (onorm : Option (V3 α)) (bm : BM α) (r : VertCap α × BM α)
    (h : VertCap.create_profile F vc ev onorm bm = Except.ok r) :
    vc.bm_gen = bm.gen := by
  simp only [VertCap.create_profile] at h
  repeat' (first | split_ifs at h | split at h)
  all_goals first | assumption | cases h

/-- create_profile only appends vertices: the bmesh generation and the
cap's stored generation survive. -/
theorem cp_gen (F : FloatOps α) (vc : VertCap α) (ev : EdgeVert α)
    (onorm : Option (V3 α)) (bm : BM α) (vc2 : VertCap α) (bm2 : BM α)
    (h : VertCap.create_profile F vc ev onorm bm = Except.ok (vc2, bm2)) :
    bm2.gen = bm.gen ∧ vc2.bm_gen = vc.bm_gen := by
  simp only [VertCap.create_profile] at h
  repeat' (first | split_ifs at h | split at h)
  all_goals first
    | (injection h with hpair
       have hfst := congrArg (fun pr : VertCap α × BM α => pr.1.bm_gen) hpair
       have hsnd := congrArg (fun pr : VertCap α × BM α => pr.2.gen) hpair
       dsimp only at hfst hsnd
       exact ⟨hsnd.symm, hfst.symm⟩)
    | cases h

/-- If the profile loop succeeds on a nonempty edge-vert list, its first
create_profile succeeded, pinning the cap's generation to the bmesh. -/
theorem cpg_needs_gen (F : FloatOps α) (caps : List (VertCap α))
    (evs : List (EdgeVert α)) (vc : VertCap α) (bm : BM α) (r : VertCap α × BM α)
    (h : VertCap.create_profiles_go F caps evs vc bm = Except.ok r)
    (hne : evs ≠ []) :
    vc.bm_gen = bm.gen := by
  cases evs with
  | nil => exact absurd rfl hne
  | cons ev rest =>
    simp only [VertCap.create_profiles_go] at h
    cases hg : caps.get? ev.i with
    | none => simp only [hg] at h; cases h
    | some other =>
      simp only [hg] at h
      cases hcp : VertCap.create_profile F vc ev other.normal bm with
      | error e => simp only [hcp] at h; cases h
      | ok pr => exact cp_needs_gen F vc ev other.normal bm pr hcp

/-- The profile loop preserves the bmesh generation. -/
theorem cpg_gen (F : FloatOps α) (caps : List (VertCap α)) :
    ∀ (evs : List (EdgeVert α)) (vc : VertCap α) (bm : BM α)
      (vc2 : VertCap α) (bm2 : BM α),
      VertCap.create_profiles_go F caps evs vc bm = Except.ok (vc2, bm2) →
      bm2.gen = bm.gen := by
  intro evs
  induction evs with
  | nil =>
    intro vc bm vc2 bm2 h
    simp only [VertCap.create_profiles_go] at h
    cases h
    rfl
  | cons ev rest ih =>
    intro vc bm vc2 bm2 h
    simp only [VertCap.create_profiles_go] at h
    cases hg : caps.get? ev.i with
    | none => simp only [hg] at h; cases h
    | some other =>
      simp only [hg] at h
      cases hcp : VertCap.create_profile F vc ev other.normal bm with
      | error e => simp only [hcp] at h; cases h
      | ok pr =>
        rcases pr with ⟨vcMid, bmMid⟩
        simp only [hcp] at h
        obtain ⟨hbg, -⟩ := cp_gen F vc ev other.normal bm vcMid bmMid hcp
        rw [ih vcMid bmMid vc2 bm2 h, hbg]

/-- Reordering touches only input_edge_verts and never empties it. -/
theorem reorder_gen (F : FloatOps α) (c c2 : VertCap α)
    (h : VertCap.reorder_edge_verts F c = Except.ok c2) :
    c2.bm_gen = c.bm_gen ∧
    (c.input_edge_verts ≠ [] → c2.input_edge_verts ≠ []) := by
  simp only [VertCap.reorder_edge_verts] at h
  repeat' (first | split_ifs at h | split at h)
  all_goals first
    | (injection h with hp; subst hp; exact ⟨rfl, fun hne => hne⟩)
    | (injection h with hp; subst hp; exact ⟨rfl, fun hne => by simp⟩)
    | cases h

/-- A successful create_profiles on a cap with at least one registered
edge vert pins the cap's stored generation to the bmesh it wrote into;
the bmesh generation itself is preserved. -/
theorem create_profiles_needs_gen (F : FloatOps α) (caps : List (VertCap α))
    (c : VertCap α) (bm : BM α) (r : VertCap α × BM α)
    (h : VertCap.create_profiles F caps c bm = Except.ok r)
    (hne : c.input_edge_verts ≠ []) :
    c.bm_gen = bm.gen := by
  simp only [VertCap.create_profiles] at h
  rw [if_neg (fun h0 => hne (List.length_eq_zero.mp h0))] at h
  cases hr : VertCap.reorder_edge_verts F c with
  | error e => rw [hr] at h; cases h
  | ok c1 =>
    rw [hr] at h
    obtain ⟨hgen, hne1⟩ := reorder_gen F c c1 hr
    rw [← hgen]
    exact cpg_needs_gen F caps c1.input_edge_verts c1 bm r h (hne1 hne)

/-- create_profiles preserves the bmesh generation. -/
theorem create_profiles_gen (F : FloatOps α) (caps : List (VertCap α))
    (c : VertCap α) (bm : BM α) (c2 : VertCap α) (bm2 : BM α)
    (h : VertCap.create_profiles F caps c bm = Except.ok (c2, bm2)) :
    bm2.gen = bm.gen := by
  simp only [VertCap.create_profiles] at h
  split_ifs at h with h0
  · injection h with hp
    exact (congrArg (fun pr : VertCap α × BM α => pr.2.gen) hp).symm
  · cases hr : VertCap.reorder_edge_verts F c with
    | error e => rw [hr] at h; cases h
    | ok c1 =>
      rw [hr] at h
      exact cpg_gen F caps c1.input_edge_verts c1 bm c2 bm2 h

/-- The profile phase with duplicate-free indices: untouched entries keep
their cap; each listed index is sent once through create_profiles. -/
theorem profilesPhase_spec (F : FloatOps α) :
    ∀ (idxs : List Nat) (caps : List (VertCap α)) (bm : BM α)
      (caps2 : List (VertCap α)) (bm2 : BM α),
      WireSkin.profilesPhase F idxs caps bm = Except.ok (caps2, bm2) →
      idxs.Nodup →
      caps2.length = caps.length ∧
      (∀ i, i ∉ idxs → caps2.get? i = caps.get? i) ∧
      (∀ i ∈ idxs, ∃ capsAt bmIn c c2 bmOut,
        caps.get? i = some c ∧ bmIn.gen = bm.gen ∧
        VertCap.create_profiles F capsAt c bmIn = Except.ok (c2, bmOut) ∧
        caps2.get? i = some c2) := by
  intro idxs
  induction idxs with
  | nil =>
    intro caps bm caps2 bm2 h _
    simp only [WireSkin.profilesPhase] at h
    cases h
    exact ⟨rfl, fun _ _ => rfl, fun i hi => absurd hi (by simp)⟩
  | cons i rest ih =>
    intro caps bm caps2 bm2 h hnd
    simp only [WireSkin.profilesPhase] at h
    cases hc : caps.get? i with
    | none => rw [hc] at h; cases h
    | some c =>
      simp only [hc] at h
      cases hcp : VertCap.create_profiles F caps c bm with
      | error e => rw [hcp] at h; cases h
      | ok pr =>
        rcases pr with ⟨c1, bm1⟩
        simp only [hcp] at h
        have hilt : i < caps.length := by
          by_contra hge
          rw [List.get?_eq_none.mpr (by omega)] at hc
          cases hc
        obtain ⟨hnd1, hnd2⟩ := List.nodup_cons.mp hnd
        obtain ⟨hlen, hout, hin⟩ := ih (caps.set i c1) bm1 caps2 bm2 h hnd2
        refine ⟨by simpa using hlen, ?_, ?_⟩
        · intro j hj
          have hji : j ≠ i := fun hh => hj (hh ▸ List.mem_cons_self _ _)
          have hjr : j ∉ rest := fun hh => hj (List.mem_cons_of_mem _ hh)
          rw [hout j hjr, List.get?_set_ne _ _ (Ne.symm hji)]
        · intro j hj
          rcases List.mem_cons.mp hj with rfl | hjr
          · refine ⟨caps, bm, c, c1, bm1, hc, rfl, hcp, ?_⟩
            rw [hout j hnd1, List.get?_set_eq_of_lt _ hilt]
          · obtain ⟨capsAt, bmIn, c', c2', bmOut, hc', hgIn, hcp', hg⟩ := hin j hjr
            have hji : j ≠ i := fun hh => hnd1 (hh ▸ hjr)
            rw [List.get?_set_ne _ _ (Ne.symm hji)] at hc'
            have hb1 : bm1.gen = bm.gen := create_profiles_gen F caps c bm c1 bm1 hcp
            exact ⟨capsAt, bmIn, c', c2', bmOut, hc', hgIn.trans hb1, hcp', hg⟩

/-- The pole-faces loop adds two faces per profile around a multivalent
cap and four per profile around a leaf, creating no vertices. -/
theorem cpf_go_spec (vc : VertCap α) :
    ∀ (profs : List (List Nat)) (bm bm2 : BM α),
      VertCap.create_pole_faces_go vc profs bm = Except.ok bm2 →
      bm2.faces.length = bm.faces.length +
        (if vc.input_edge_verts.length > 1 then 2 else 4) * profs.length ∧
      bm2.verts = bm.verts ∧ bm2.creases = bm.creases := by
  intro profs
  induction profs with
  | nil =>
    intro bm bm2 h
    simp only [VertCap.create_pole_faces_go] at h
    cases h
    exact ⟨by simp, rfl, rfl⟩
  | cons p rest ih =>
    intro bm bm2 h
    simp only [VertCap.create_pole_faces_go] at h
    repeat' (first | split_ifs at h | split at h)
    all_goals first
      | cases h
      | (obtain ⟨hlen, hv, hc⟩ := ih _ _ h
         refine ⟨?_, hv, hc⟩
         simp only [BM.newFace, List.length_append, List.length_cons,
           List.length_nil] at hlen
         simp only [List.length_cons] at hlen ⊢
         split_ifs at hlen ⊢ <;> omega)

/-- The inter-profile loop adds three faces per index and only records
creased edges on the accumulating cap. -/
theorem ifg_spec (vc : VertCap α) (np : Nat) :
    ∀ (idxs : List Nat) (vcA : VertCap α) (bm : BM α) (vc2 : VertCap α) (bm2 : BM α),
      VertCap.inter_faces_go vc np idxs vcA bm = Except.ok (vc2, bm2) →
      bm2.faces.length = bm.faces.length + 3 * idxs.length ∧
      vc2 = { vcA with creased_edges := vc2.creased_edges } ∧
      bm2.verts = bm.verts ∧ bm2.creases = bm.creases := by
  intro idxs
  induction idxs with
  | nil =>
    intro vcA bm vc2 bm2 h
    simp only [VertCap.inter_faces_go] at h
    cases h
    exact ⟨by simp, rfl, rfl, rfl⟩
  | cons i rest ih =>
    intro vcA bm vc2 bm2 h
    simp only [VertCap.inter_faces_go] at h
    repeat' (first | split_ifs at h | split at h)
    all_goals first
      | cases h
      | (obtain ⟨hlen, hrel, hv, hc⟩ := ih _ _ _ _ h
         refine ⟨?_, by rw [hrel], hv, hc⟩
         simp only [BM.newFace, List.length_append, List.length_cons,
           List.length_nil] at hlen
         simp only [List.length_cons] at hlen ⊢
         rw [hlen]
         omega)

/-- create_inter_profile_faces adds three faces per profile for a cap of
degree at least two and none otherwise; only creased_edges may change on
the cap, and no vertices are created. -/
theorem cipf_spec (vc vc2 : VertCap α) (bm bm2 : BM α)
    (h : VertCap.create_inter_profile_faces vc bm = Except.ok (vc2, bm2)) :
    bm2.faces.length = bm.faces.length +
      (if vc.input_edge_verts.length < 2 then 0 else 3 * vc.profiles.length) ∧
    vc2 = { vc with creased_edges := vc2.creased_edges } ∧
    bm2.verts = bm.verts ∧ bm2.creases = bm.creases := by
  simp only [VertCap.create_inter_profile_faces] at h
  split_ifs at h with hlt
  · cases h
    exact ⟨by simp [hlt], rfl, rfl, rfl⟩
  · obtain ⟨hlen, hrel, hv, hc⟩ := ifg_spec vc _ _ _ _ _ _ h
    refine ⟨?_, hrel, hv, hc⟩
    rw [hlen]
    simp [hlt]

/-- The faces phase with duplicate-free indices: untouched entries keep
their cap; each listed index is sent once through the two face builders. -/
theorem facesPhase_spec :
    ∀ (idxs : List Nat) (caps : List (VertCap α)) (bm : BM α)
      (caps2 : List (VertCap α)) (bm2 : BM α),
      WireSkin.facesPhase idxs caps bm = Except.ok (caps2, bm2) →
      idxs.Nodup →
      caps2.length = caps.length ∧
      (∀ i, i ∉ idxs → caps2.get? i = caps.get? i) ∧
      (∀ i ∈ idxs, ∃ c bmIn bmMid c2 bmOut,
        caps.get? i = some c ∧
        VertCap.create_pole_faces c bmIn = Except.ok bmMid ∧
        VertCap.create_inter_profile_faces c bmMid = Except.ok (c2, bmOut) ∧
        caps2.get? i = some c2) := by
  intro idxs
  induction idxs with
  | nil =>
    intro caps bm caps2 bm2 h _
    simp only [WireSkin.facesPhase] at h
    cases h
    exact ⟨rfl, fun _ _ => rfl, fun i hi => absurd hi (by simp)⟩
  | cons i rest ih =>
    intro caps bm caps2 bm2 h hnd
    simp only [WireSkin.facesPhase] at h
    cases hc : caps.get? i with
    | none => rw [hc] at h; cases h
    | some c =>
      simp only [hc] at h
      cases hpf : VertCap.create_pole_faces c bm with
      | error e => rw [hpf] at h; cases h
      | ok bmMid =>
        simp only [hpf] at h
        cases hif : VertCap.create_inter_profile_faces c bmMid with
        | error e => rw [hif] at h; cases h
        | ok pr =>
          rcases pr with ⟨c1, bm1⟩
          simp only [hif] at h
          have hilt : i < caps.length := by
            by_contra hge
            rw [List.get?_eq_none.mpr (by omega)] at hc
            cases hc
          obtain ⟨hnd1, hnd2⟩ := List.nodup_cons.mp hnd
          obtain ⟨hlen, hout, hin⟩ := ih (caps.set i c1) bm1 caps2 bm2 h hnd2
          refine ⟨by simpa using hlen, ?_, ?_⟩
          · intro j hj
            have hji : j ≠ i := fun hh => hj (hh ▸ List.mem_cons_self _ _)
            have hjr : j ∉ rest := fun hh => hj (List.mem_cons_of_mem _ hh)
            rw [hout j hjr, List.get?_set_ne _ _ (Ne.symm hji)]
          · intro j hj
            rcases List.mem_cons.mp hj with rfl | hjr
            · refine ⟨c, bm, bmMid, c1, bm1, hc, hpf, hif, ?_⟩
              rw [hout j hnd1, List.get?_set_eq_of_lt _ hilt]
            · obtain ⟨c', bmIn, bmMid', c2', bmOut, hc', hpf', hif', hg⟩ := hin j hjr
              have hji : j ≠ i := fun hh => hnd1 (hh ▸ hjr)
              rw [List.get?_set_ne _ _ (Ne.symm hji)] at hc'
              exact ⟨c', bmIn, bmMid', c2', bmOut, hc', hpf', hif', hg⟩

/-- A successful join_profiles found both endpoint caps and retrieved the
edge's profile from each endpoint's map. -/
theorem join_ok_lookups (F : FloatOps α) (pc : ProfileConnector α)
    (caps : List (VertCap α)) (bm : BM α) (pc2 : ProfileConnector α) (bm2 : BM α)
    (h : ProfileConnector.join_profiles F pc caps bm = Except.ok (pc2, bm2)) :
    ∃ vc0 vc1 p0 p1, caps.get? pc.edgeV.1 = some vc0 ∧ caps.get? pc.edgeV.2 = some vc1 ∧
      VertCap.get_edge_profile vc0 pc.edgeIdx = Except.ok p0 ∧
      VertCap.get_edge_profile vc1 pc.edgeIdx = Except.ok p1 := by
  simp only [ProfileConnector.join_profiles] at h
  cases hv0 : caps.get? pc.edgeV.1 with
  | none => simp only [hv0] at h; cases h
  | some vc0 =>
    cases hv1 : caps.get? pc.edgeV.2 with
    | none => simp only [hv0, hv1] at h; cases h
    | some vc1 =>
      simp only [hv0, hv1] at h
      cases hg0 : VertCap.get_edge_profile vc0 pc.edgeIdx with
      | error e => simp only [hg0] at h; cases h
      | ok p0 =>
        cases hg1 : VertCap.get_edge_profile vc1 pc.edgeIdx with
        | error e => simp only [hg0, hg1] at h; cases h
        | ok p1 => exact ⟨vc0, vc1, p0, p1, rfl, rfl, hg0, hg1⟩

/-- The connect phase appends one connector per edge and runs each edge's
join against the fixed cap list, with the edge index counting from j. -/
theorem connectPhase_spec (F : FloatOps α) (kw : Kwargs α) (caps : List (VertCap α)) :
    ∀ (es : List (Nat × Nat)) (j : Nat) (pcs : List (ProfileConnector α)) (bm : BM α)
      (pcs2 : List (ProfileConnector α)) (bm2 : BM α),
      WireSkin.connectPhase F kw caps j es pcs bm = Except.ok (pcs2, bm2) →
      (∃ l, pcs2 = pcs ++ l ∧ l.length = es.length) ∧
      (∀ k, k < es.length → ∃ e pc2 bmIn bmOut, es.get? k = some e ∧
        ProfileConnector.join_profiles F (ProfileConnector.init (j + k) e kw) caps bmIn
          = Except.ok (pc2, bmOut)) := by
  intro es
  induction es with
  | nil =>
    intro j pcs bm pcs2 bm2 h
    simp only [WireSkin.connectPhase] at h
    cases h
    exact ⟨⟨[], by simp, rfl⟩, fun k hk => absurd hk (by simp)⟩
  | cons e rest ih =>
    intro j pcs bm pcs2 bm2 h
    simp only [WireSkin.connectPhase] at h
    cases hj : ProfileConnector.join_profiles F (ProfileConnector.init j e kw) caps bm with
    | error err => rw [hj] at h; cases h
    | ok pr =>
      rcases pr with ⟨pc1, bm1⟩
      simp only [hj] at h
      obtain ⟨⟨l, hl, hllen⟩, hjoins⟩ := ih (j + 1) (pcs ++ [pc1]) bm1 pcs2 bm2 h
      refine ⟨⟨pc1 :: l, by rw [hl]; simp, by simp [hllen]⟩, ?_⟩
      intro k hk
      cases k with
      | zero => exact ⟨e, pc1, bm, bm1, rfl, by simpa using hj⟩
      | succ k2 =>
        obtain ⟨e', pc2, bmIn, bmOut, he', hjo⟩ := hjoins k2 (by simpa using hk)
        refine ⟨e', pc2, bmIn, bmOut, by simpa using he', ?_⟩
        have harith : j + 1 + k2 = j + (k2 + 1) := by omega
        rw [harith] at hjo
        exact hjo

/-- A successful create_mesh run decomposes into its successful phases;
the stored caps are the faces-phase caps and the stored connectors are
the connect-phase connectors. -/
theorem create_mesh_phases (F : FloatOps α) (ws : WireSkin α) (ws2 : WireSkin α)
    (bmr : BM α)
    (h : WireSkin.create_mesh F ws = Except.ok (ws2, bmr)) :
    ∃ caps0 caps1 capsP bmP capsQ bmQ capsF bmF pcs bmC,
      WireSkin.initCaps ws.build_count ws.kwargs ws.mesh.verts = Except.ok caps0 ∧
      WireSkin.addEdges F ws.mesh.verts 0 ws.mesh.edges (ws.vert_caps ++ caps0)
        = Except.ok caps1 ∧
      WireSkin.polesPhase F caps1 (BM.fresh ws.build_count) = Except.ok (capsP, bmP) ∧
      WireSkin.profilesPhase F (List.range capsP.length) capsP bmP
        = Except.ok (capsQ, bmQ) ∧
      WireSkin.facesPhase (List.range capsQ.length) capsQ bmQ
        = Except.ok (capsF, bmF) ∧
      WireSkin.connectPhase F ws.kwargs capsF 0 ws.mesh.edges ws.profile_connectors bmF
        = Except.ok (pcs, bmC) ∧
      ws2.vert_caps = capsF ∧ ws2.profile_connectors = pcs ∧ ws2.mesh = ws.mesh ∧
      ws2.build_count = ws.build_count + 1 := by
  simp only [WireSkin.create_mesh] at h
  cases h0 : WireSkin.initCaps ws.build_count ws.kwargs ws.mesh.verts with
  | error e => rw [h0] at h; cases h
  | ok caps0 =>
    simp only [h0] at h
    cases h1 : WireSkin.addEdges F ws.mesh.verts 0 ws.mesh.edges (ws.vert_caps ++ caps0) with
    | error e => rw [h1] at h; cases h
    | ok caps1 =>
      simp only [h1] at h
      cases hp : WireSkin.polesPhase F caps1 (BM.fresh ws.build_count) with
      | error e => rw [hp] at h; cases h
      | ok prP =>
      rcases prP with ⟨capsP, bmP⟩
      simp only [hp] at h
      cases hq : WireSkin.profilesPhase F (List.range capsP.length) capsP bmP with
      | error e => rw [hq] at h; cases h
      | ok prQ =>
        rcases prQ with ⟨capsQ, bmQ⟩
        simp only [hq] at h
        cases hf : WireSkin.facesPhase (List.range capsQ.length) capsQ bmQ with
        | error e => rw [hf] at h; cases h
        | ok prF =>
          rcases prF with ⟨capsF, bmF⟩
          simp only [hf] at h
          cases hcn : WireSkin.connectPhase F ws.kwargs capsF 0 ws.mesh.edges
              ws.profile_connectors bmF with
          | error e => rw [hcn] at h; cases h
          | ok prC =>
            rcases prC with ⟨pcs, bmC⟩
            simp only [hcn] at h
            cases hcr : WireSkin.creasePhase
                (if ws.kwargs.crease.isSome then true else ws.crease_layer)
                capsF pcs bmC with
            | error e => rw [hcr] at h; cases h
            | ok bmL =>
              simp only [hcr] at h
              injection h with hpair
              injection hpair with hws hbm
              exact ⟨caps0, caps1, capsP, bmP, capsQ, bmQ, capsF, bmF, pcs, bmC,
                rfl, h1, hp, hq, hf, hcn, by rw [← hws], by rw [← hws], by rw [← hws],
                by rw [← hws]⟩

/-- The 4-fan branch of the pole-faces loop reads poles[0], so it cannot
succeed on a poleless cap with a profile. -/
theorem cpf_needs_pole (vc : VertCap α) (p : List Nat) (rest : List (List Nat))
    (bm bm2 : BM α)
    (hlt : ¬ vc.input_edge_verts.length > 1)
    (hpoles : vc.poles = [])
    (h : VertCap.create_pole_faces_go vc (p :: rest) bm = Except.ok bm2) : False := by
  simp only [VertCap.create_pole_faces_go, if_neg hlt, hpoles, List.get?] at h
  cases h

/-- The per-vertex outcome of a successful build on a fresh WireSkin over
a self-loop-free wireframe: the stored cap holds degree-many length-4
profiles, the per-degree pole count, a profile map keyed exactly by the
incident edge indices, and its face builders added exactly the per-degree
intra-cap face count during the faces phase. -/
theorem build_cap_spec (F : FloatOps α) (m : Wireframe α) (kw : Kwargs α)
    (ws2 : WireSkin α) (bmr : BM α)
    (hsl : noSelfLoops m)
    (h : WireSkin.create_mesh F (WireSkin.init m kw) = Except.ok (ws2, bmr))
    (i : Nat) (hi : i < m.verts.length) :
    ∃ c, ws2.vert_caps.get? i = some c ∧
      c.profiles.length = degree m i ∧
      c.poles.length = polesExpected (degree m i) ∧
      (∀ p ∈ c.profiles, p.length = 4) ∧
      (∀ k, (assocGet c.edge_profile_map k).isSome ↔ k ∈ incidentIdx i 0 m.edges) ∧
      ∃ cq bmIn bmMid bmOut,
        c = { cq with creased_edges := c.creased_edges } ∧
        VertCap.create_pole_faces cq bmIn = Except.ok bmMid ∧
        VertCap.create_inter_profile_faces cq bmMid = Except.ok (c, bmOut) ∧
        bmOut.faces.length = bmIn.faces.length + intraFaces (degree m i) := by
  obtain ⟨caps0, caps1, capsP, bmP, capsQ, bmQ, capsF, bmF, pcs, bmC,
    h0, h1, hp, hq, hf, hcn, hwc, hwp, hwm, -⟩ := create_mesh_phases F _ ws2 bmr h
  obtain ⟨hlen0, hfresh⟩ := initCaps_spec _ kw m.verts caps0 h0
  obtain ⟨hlen1, hspec1⟩ := addEdges_spec F m.verts m.edges 0 caps0 caps1 h1
  have hi0 : i < caps0.length := by omega
  obtain ⟨c0, c1, hg0, hg1, hrel1, hproj1⟩ := hspec1 i hi0
  obtain ⟨⟨hfiev, hfpoles, hfprof, hfmap, hfnorm⟩, -⟩ := hfresh c0 (List.get?_mem hg0)
  have hproj1' : eProj c1.input_edge_verts = incidentIdx i 0 m.edges := by
    rw [hproj1, hfiev]
    simp [eProj]
  have hpoles1 : c1.poles = [] := by rw [hrel1]; exact hfpoles
  have hprof1 : c1.profiles = [] := by rw [hrel1]; exact hfprof
  have hmap1 : c1.edge_profile_map = [] := by rw [hrel1]; exact hfmap
  have hn1 : c1.normal = none := by rw [hrel1]; exact hfnorm
  have hlen_c1 : c1.input_edge_verts.length = degree m i := by
    have he := congrArg List.length hproj1'
    simp only [eProj, List.length_map] at he
    have e2 := incidentIdx_length i m.edges 0
    simp only [degree]
    omega
  -- pole phase
  obtain ⟨hlenP, -, hspecP⟩ := polesPhase_spec F caps1 _ capsP bmP hp
  have hi1 : i < caps1.length := by omega
  obtain ⟨cP0, bmIn0, hgP0, -, hgP⟩ := hspecP i hi1
  have hcP0 : c1 = cP0 := by
    have := hg1.symm.trans hgP0
    injection this with hx
  subst hcP0
  set cP := (VertCap.create_pole_verts F c1 bmIn0).1 with hcPdef
  obtain ⟨hPrel, hPnone, hPsome⟩ := cpv_spec F c1 bmIn0 hn1
  rw [← hcPdef] at hPrel hPnone hPsome
  have hPiev : cP.input_edge_verts = c1.input_edge_verts := by rw [hPrel]
  have hPprof : cP.profiles = c1.profiles := by rw [hPrel]
  have hPmap : cP.edge_profile_map = c1.edge_profile_map := by rw [hPrel]
  -- profile phase
  obtain ⟨hlenQ, houtQ, hinQ⟩ := profilesPhase_spec F (List.range capsP.length)
    capsP bmP capsQ bmQ hq (List.nodup_range _)
  have hiP : i < capsP.length := by omega
  obtain ⟨capsAt, bmIn1, cc, c2, bmOut1, hgQ0, -, hcp2, hgQ⟩ :=
    hinQ i (List.mem_range.mpr hiP)
  have hcc : cP = cc := by
    have := hgP.symm.trans hgQ0
    injection this with hx
  subst hcc
  have hnodP : (eProj cP.input_edge_verts).Nodup := by
    rw [hPiev, hproj1']
    exact incidentIdx_nodup i m.edges hsl 0
  obtain ⟨hrelQ, hlenle, hndQ, hmemQ, hprofQ, hmem4Q, hmapQ, hlt2Q, hnormQ⟩ :=
    create_profiles_spec F capsAt cP bmIn1 c2 bmOut1 hcp2 hnodP
  have hc2poles : c2.poles = cP.poles := by rw [hrelQ]
  -- faces phase
  obtain ⟨hlenF, houtF, hinF⟩ := facesPhase_spec (List.range capsQ.length)
    capsQ bmQ capsF bmF hf (List.nodup_range _)
  have hiQ : i < capsQ.length := by omega
  obtain ⟨c2', bmIn2, bmMid2, c3, bmOut2, hgF0, hpf2, hif2, hgF⟩ :=
    hinF i (List.mem_range.mpr hiQ)
  have hc2' : c2 = c2' := by
    have := hgQ.symm.trans hgF0
    injection this with hx
  subst hc2'
  obtain ⟨hB, hrel3, hv3, hcr3⟩ := cipf_spec c2 c3 bmMid2 bmOut2 hif2
  have hm3 : c3.edge_profile_map = c2.edge_profile_map := by rw [hrel3]
  have hc3poles : c3.poles = c2.poles := by rw [hrel3]
  have hc3prof : c3.profiles = c2.profiles := by rw [hrel3]
  -- connect phase forces the incident edges into the map
  obtain ⟨-, hjoins⟩ := connectPhase_spec F kw capsF m.edges 0 [] bmF pcs bmC hcn
  have hsub1 : ∀ x ∈ eProj c2.input_edge_verts, x ∈ incidentIdx i 0 m.edges := by
    intro x hx
    have hxm := hmemQ x hx
    rw [hPiev, hproj1'] at hxm
    exact hxm
  have hsub2 : ∀ j ∈ incidentIdx i 0 m.edges, j ∈ eProj c2.input_edge_verts := by
    intro j hj
    obtain ⟨k, hk, hjk, hor⟩ := (incidentIdx_mem i m.edges 0 j).mp hj
    obtain ⟨e, pc2, bmIn3, bmOut3, hek, hjo⟩ := hjoins k hk
    obtain ⟨vc0, vc1, p0, p1, hv0, hv1, hgp0, hgp1⟩ :=
      join_ok_lookups F _ capsF bmIn3 pc2 bmOut3 hjo
    simp only [ProfileConnector.init] at hv0 hv1 hgp0 hgp1
    have hke : m.edges.get? k = some (m.edges[k]) :=
      List.get?_eq_get hk
    have hee : e = m.edges[k] := by
      have := hek.symm.trans hke
      injection this with hx
    have hjay : j = k := by omega
    subst hjay
    have hsome3 : (assocGet c3.edge_profile_map (0 + j)).isSome := by
      rcases hor with hor | hor
      · have hvv : capsF.get? i = some vc0 := by rw [← hor, ← hee]; exact hv0
        have hvc : c3 = vc0 := by
          have := hgF.symm.trans hvv
          injection this with hx
        subst hvc
        simp only [VertCap.get_edge_profile] at hgp0
        cases hga : assocGet c3.edge_profile_map (0 + j) with
        | none => rw [hga] at hgp0; cases hgp0
        | some q => simp
      · have hvv : capsF.get? i = some vc1 := by rw [← hor, ← hee]; exact hv1
        have hvc : c3 = vc1 := by
          have := hgF.symm.trans hvv
          injection this with hx
        subst hvc
        simp only [VertCap.get_edge_profile] at hgp1
        cases hga : assocGet c3.edge_profile_map (0 + j) with
        | none => rw [hga] at hgp1; cases hgp1
        | some q => simp
    rw [Nat.zero_add] at hsome3
    rw [hm3] at hsome3
    have := (hmapQ j).mp hsome3
    rcases this with hpre | hmem
    · rw [hPmap, hmap1] at hpre
      simp [assocGet] at hpre
    · exact hmem
  -- squeeze: the surviving edge verts are exactly the incident edges
  have hndI : (incidentIdx i 0 m.edges).Nodup := incidentIdx_nodup i m.edges hsl 0
  have hlen_eq : (eProj c2.input_edge_verts).length = (incidentIdx i 0 m.edges).length := by
    have hle1 := (List.Nodup.subperm hndQ (fun x hx => hsub1 x hx)).length_le
    have hle2 := (List.Nodup.subperm hndI (fun x hx => hsub2 x hx)).length_le
    omega
  have hdeg2 : c2.input_edge_verts.length = degree m i := by
    have e1 : (eProj c2.input_edge_verts).length = c2.input_edge_verts.length := by
      simp [eProj]
    have e2 := incidentIdx_length i m.edges 0
    simp only [degree]
    omega
  have hprofilesQ : c2.profiles.length = degree m i := by
    rw [hprofQ, hPprof, hprof1]
    simpa using hdeg2
  -- pole count
  have hpolesQ : c2.poles.length = polesExpected (degree m i) := by
    rw [hc2poles]
    rcases hD : degree m i with _ | D
    · cases hcnP : cP.normal with
      | some n =>
        have hne0 := (hPsome n hcnP).2
        omega
      | none =>
        rw [hPnone hcnP, hpoles1]
        simp [polesExpected]
    · cases D with
      | zero =>
        cases hcnP : cP.normal with
        | none =>
          exfalso
          have hc2p : c2.poles = [] := by rw [hc2poles, hPnone hcnP, hpoles1]
          have hplen1 : c2.profiles.length = 1 := by omega
          obtain ⟨p, hp1⟩ := List.length_eq_one.mp hplen1
          have hnot : ¬ c2.input_edge_verts.length > 1 := by omega
          simp only [VertCap.create_pole_faces, hp1] at hpf2
          exact cpf_needs_pole c2 p [] bmIn2 bmMid2 hnot hc2p hpf2
        | some n =>
          obtain ⟨hplen, -⟩ := hPsome n hcnP
          have hone : c1.input_edge_verts.length = 1 := by omega
          rw [hplen, hpoles1, hone]
          simp [polesExpected]
      | succ D2 =>
        have hge : 2 ≤ cP.input_edge_verts.length := by rw [hPiev]; omega
        cases hcnP : cP.normal with
        | none => exact absurd hcnP (hnormQ hge)
        | some n =>
          obtain ⟨hplen, -⟩ := hPsome n hcnP
          rw [hplen, hpoles1]
          rw [if_pos (by omega : c1.input_edge_verts.length > 1)]
          simp [polesExpected]
  -- face delta
  have hface : bmOut2.faces.length = bmIn2.faces.length + intraFaces (degree m i) := by
    obtain ⟨hA, -, -⟩ := cpf_go_spec c2 c2.profiles bmIn2 bmMid2 hpf2
    rw [hB, hA, hdeg2, hprofilesQ]
    simp only [intraFaces]
    split_ifs <;> omega
  refine ⟨c3, by rw [hwc]; exact hgF, ?_, ?_, ?_, ?_, c2, bmIn2, bmMid2, bmOut2,
    hrel3, hpf2, hif2, hface⟩
  · rw [hc3prof]; exact hprofilesQ
  · rw [hc3poles]; exact hpolesQ
  · intro p hp3
    rw [hc3prof] at hp3
    rcases hmem4Q p hp3 with hin | hin
    · rw [hPprof, hprof1] at hin
      cases hin
    · exact hin
  · intro k
    rw [hm3, hmapQ k, hPmap, hmap1]
    simp only [assocGet, Option.isSome_none, Bool.false_eq_true, false_or]
    exact ⟨fun hx => hsub1 k hx, fun hx => hsub2 k hx⟩

/-- C1: after a successful build on a fresh WireSkin over a self-loop-free
wireframe, every vertex's cap shows the claimed per-degree counts:
polesExpected d poles (2 for degree d at least 2, 1 for d = 1, 0 for
d = 0), d profiles, and during the faces phase this cap's face builders
added exactly intraFaces d faces (2d end-cap triangles plus 3d lens faces
for d at least 2, a 4-triangle fan for d = 1, none for d = 0). -/
theorem c1_per_degree_counts (F : FloatOps α) (m : Wireframe α) (kw : Kwargs α)
    (ws2 : WireSkin α) (bmr : BM α)
    (hsl : noSelfLoops m)
    (h : WireSkin.create_mesh F (WireSkin.init m kw) = Except.ok (ws2, bmr))
    (i : Nat) (hi : i < m.verts.length) :
    ∃ c, ws2.vert_caps.get? i = some c ∧
      c.poles.length = polesExpected (degree m i) ∧
      c.profiles.length = degree m i ∧
      ∃ cq bmIn bmMid bmOut,
        c = { cq with creased_edges := c.creased_edges } ∧
        VertCap.create_pole_faces cq bmIn = Except.ok bmMid ∧
        VertCap.create_inter_profile_faces cq bmMid = Except.ok (c, bmOut) ∧
        bmOut.faces.length = bmIn.faces.length + intraFaces (degree m i) := by
  obtain ⟨c, hg, hprof, hpoles, h4, hmap, hrest⟩ :=
    build_cap_spec F m kw ws2 bmr hsl h i hi
  exact ⟨c, hg, hpoles, hprof, hrest⟩

/-- C1 witness: the triangle build succeeds and vertex 0 (degree 2) shows
2 poles, 2 profiles, and 10 intra-cap faces. -/
theorem c1_witness :
    (∀ e ∈ fixTri.edges, e.1 ≠ e.2) ∧ 0 < fixTri.verts.length ∧
    (∃ c, triWS.vert_caps.get? 0 = some c ∧
      c.poles.length = polesExpected (degree fixTri 0) ∧
      c.profiles.length = degree fixTri 0 ∧
      ∃ cq bmIn bmMid bmOut,
        c = { cq with creased_edges := c.creased_edges } ∧
        VertCap.create_pole_faces cq bmIn = Except.ok bmMid ∧
        VertCap.create_inter_profile_faces cq bmMid = Except.ok (c, bmOut) ∧
        bmOut.faces.length = bmIn.faces.length + intraFaces (degree fixTri 0)) :=
  ⟨by decide, by decide,
    c1_per_degree_counts QOps fixTri fixKw triWS triBM
      (by unfold noSelfLoops; decide)
      (by with_unfolding_all decide) 0 (by decide)⟩

/-- C7: after a successful build on a fresh WireSkin over a self-loop-free
wireframe, every cap holds exactly degree-many profiles, and each
wireframe edge's profile is retrievable from exactly its two endpoint
caps' edge-to-profile maps: both endpoint lookups succeed and every other
cap's lookup raises KeyError. The faces and connect phases do not touch
profiles or the map, so the final caps exhibit the post-profile-phase
invariant. -/
theorem c7_profile_invariant (F : FloatOps α) (m : Wireframe α) (kw : Kwargs α)
    (ws2 : WireSkin α) (bmr : BM α)
    (hsl : noSelfLoops m)
    (h : WireSkin.create_mesh F (WireSkin.init m kw) = Except.ok (ws2, bmr)) :
    (∀ i, i < m.verts.length → ∃ c, ws2.vert_caps.get? i = some c ∧
      c.profiles.length = degree m i) ∧
    (∀ j e, m.edges.get? j = some e →
      (∃ c1 p1, ws2.vert_caps.get? e.1 = some c1 ∧
        VertCap.get_edge_profile c1 j = Except.ok p1) ∧
      (∃ c2 p2, ws2.vert_caps.get? e.2 = some c2 ∧
        VertCap.get_edge_profile c2 j = Except.ok p2) ∧
      (∀ i, i < m.verts.length → i ≠ e.1 → i ≠ e.2 →
        ∀ c, ws2.vert_caps.get? i = some c →
          VertCap.get_edge_profile c j = Except.error Err.keyError)) := by
  constructor
  · intro i hi
    obtain ⟨c, hg, hprof, -, -, -, -⟩ := build_cap_spec F m kw ws2 bmr hsl h i hi
    exact ⟨c, hg, hprof⟩
  · intro j e hje
    obtain ⟨caps0, caps1, capsP, bmP, capsQ, bmQ, capsF, bmF, pcs, bmC,
      h0, h1, hp, hq, hf, hcn, hwc, hwp, hwm, -⟩ := create_mesh_phases F _ ws2 bmr h
    obtain ⟨-, hjoins⟩ := connectPhase_spec F kw capsF m.edges 0 [] bmF pcs bmC hcn
    have hjlt : j < m.edges.length := by
      by_contra hge
      rw [List.get?_eq_none.mpr (by omega)] at hje
      cases hje
    obtain ⟨e', pc2, bmIn3, bmOut3, hek, hjo⟩ := hjoins j hjlt
    have hee : e = e' := by
      have := hje.symm.trans hek
      injection this with hx
    subst hee
    obtain ⟨vc0, vc1, p0, p1, hv0, hv1, hgp0, hgp1⟩ :=
      join_ok_lookups F _ capsF bmIn3 pc2 bmOut3 hjo
    simp only [ProfileConnector.init, Nat.zero_add] at hv0 hv1 hgp0 hgp1
    refine ⟨⟨vc0, p0, by rw [hwc]; exact hv0, hgp0⟩,
      ⟨vc1, p1, by rw [hwc]; exact hv1, hgp1⟩, ?_⟩
    intro i hi hne1 hne2 c hgc
    obtain ⟨c', hg', -, -, -, hmap', -⟩ := build_cap_spec F m kw ws2 bmr hsl h i hi
    have hcc : c = c' := by
      have := hgc.symm.trans hg'
      injection this with hx
    subst hcc
    have hnotmem : j ∉ incidentIdx i 0 m.edges := by
      intro hmem
      obtain ⟨k, hk, hjk, hor⟩ := (incidentIdx_mem i m.edges 0 j).mp hmem
      have hkj : k = j := by omega
      subst hkj
      have hke : m.edges.get? k = some (m.edges[k]) := List.get?_eq_get hk
      have heq : e = m.edges[k] := by
        have := hje.symm.trans hke
        injection this with hx
      rcases hor with hor | hor
      · exact hne1 (by rw [heq]; exact hor.symm)
      · exact hne2 (by rw [heq]; exact hor.symm)
    have hnone : assocGet c.edge_profile_map j = none := by
      cases hx : assocGet c.edge_profile_map j with
      | none => rfl
      | some q =>
        exfalso
        exact hnotmem ((hmap' j).mp (by simp [hx]))
    simp only [VertCap.get_edge_profile, hnone]

/-- C7 witness: on the triangle build, every cap holds 2 profiles, edge 0
is retrievable from caps 0 and 1, and cap 2's lookup of edge 0 raises
KeyError. -/
theorem c7_witness :
    (∀ e ∈ fixTri.edges, e.1 ≠ e.2) ∧
    ((∀ i, i < fixTri.verts.length → ∃ c, triWS.vert_caps.get? i = some c ∧
      c.profiles.length = degree fixTri i) ∧
    (∀ j e, fixTri.edges.get? j = some e →
      (∃ c1 p1, triWS.vert_caps.get? e.1 = some c1 ∧
        VertCap.get_edge_profile c1 j = Except.ok p1) ∧
      (∃ c2 p2, triWS.vert_caps.get? e.2 = some c2 ∧
        VertCap.get_edge_profile c2 j = Except.ok p2) ∧
      (∀ i, i < fixTri.verts.length → i ≠ e.1 → i ≠ e.2 →
        ∀ c, triWS.vert_caps.get? i = some c →
          VertCap.get_edge_profile c j = Except.error Err.keyError))) :=
  ⟨by decide,
    c7_profile_invariant QOps fixTri fixKw triWS triBM
      (by unfold noSelfLoops; decide)
      (by with_unfolding_all decide)⟩

/-- A successful edge registration pass keeps every edge endpoint inside
the cap list. -/
theorem addEdges_bounds (F : FloatOps α) (verts : List (V3 α)) :
    ∀ (es : List (Nat × Nat)) (j : Nat) (caps caps2 : List (VertCap α)),
      WireSkin.addEdges F verts j es caps = Except.ok caps2 →
      ∀ e ∈ es, e.1 < caps.length ∧ e.2 < caps.length := by
  intro es
  induction es with
  | nil => intro j caps caps2 h e he; simp at he
  | cons e0 rest ih =>
    intro j caps caps2 h e he
    simp only [WireSkin.addEdges] at h
    cases hr1 : WireSkin.registerOne F verts j e0.1 e0.2 caps with
    | error err => rw [hr1] at h; cases h
    | ok capsA =>
      simp only [hr1] at h
      cases hr2 : WireSkin.registerOne F verts j e0.2 e0.1 capsA with
      | error err => rw [hr2] at h; cases h
      | ok capsB =>
        simp only [hr2] at h
        obtain ⟨hlenA, -, cA, evA, hgA, -, -⟩ :=
          registerOne_spec F verts j e0.1 e0.2 caps capsA hr1
        obtain ⟨hlenB, -, cB, evB, hgB, -, -⟩ :=
          registerOne_spec F verts j e0.2 e0.1 capsA capsB hr2
        have h1lt : e0.1 < caps.length := by
          by_contra hxx
          rw [List.get?_eq_none.mpr (by omega)] at hgA
          cases hgA
        have h2lt : e0.2 < capsA.length := by
          by_contra hxx
          rw [List.get?_eq_none.mpr (by omega)] at hgB
          cases hgB
        rcases List.mem_cons.mp he with rfl | hrest
        · exact ⟨h1lt, by omega⟩
        · have := ih (j + 1) capsB caps2 h e hrest
          constructor <;> omega

/-- A vertex index hit by no edge endpoint receives no registrations. -/
theorem incidentIdx_nil_out (i : Nat) :
    ∀ (es : List (Nat × Nat)) (j : Nat), (∀ e ∈ es, e.1 ≠ i ∧ e.2 ≠ i) →
      incidentIdx i j es = [] := by
  intro es
  induction es with
  | nil => intro j _; rfl
  | cons e rest ih =>
    intro j hno
    obtain ⟨h1, h2⟩ := hno e (List.mem_cons_self _ _)
    simp only [incidentIdx, if_neg h1, if_neg h2]
    simpa using ih (j + 1) (fun x hx => hno x (List.mem_cons_of_mem _ hx))

/-- create_pole_verts returns immediately on a cap with no edge verts. -/
theorem cpv_empty (F : FloatOps α) (c : VertCap α) (bm : BM α)
    (h : c.input_edge_verts = []) :
    VertCap.create_pole_verts F c bm = (c, bm) := by
  simp [VertCap.create_pole_verts, h]

/-- create_profiles returns immediately on a cap with no edge verts. -/
theorem create_profiles_empty (F : FloatOps α) (caps : List (VertCap α))
    (c : VertCap α) (bm : BM α) (h : c.input_edge_verts = []) :
    VertCap.create_profiles F caps c bm = Except.ok (c, bm) := by
  simp [VertCap.create_profiles, h]

/-- create_inter_profile_faces returns immediately below degree two. -/
theorem cipf_empty (c : VertCap α) (bm : BM α)
    (h : c.input_edge_verts.length < 2) :
    VertCap.create_inter_profile_faces c bm = Except.ok (c, bm) := by
  simp [VertCap.create_inter_profile_faces, if_pos h]

/-- Size bookkeeping of a successful build on an arbitrary (possibly
already used) WireSkin state: one new cap per wireframe vertex, one new
connector per edge appended behind the existing ones, the wireframe
unchanged, and every edge endpoint within the enlarged cap list. -/
theorem build_lengths (F : FloatOps α) (ws : WireSkin α) (ws2 : WireSkin α) (bmr : BM α)
    (h : WireSkin.create_mesh F ws = Except.ok (ws2, bmr)) :
    ws2.vert_caps.length = ws.vert_caps.length + ws.mesh.verts.length ∧
    (∃ l, ws2.profile_connectors = ws.profile_connectors ++ l ∧
      l.length = ws.mesh.edges.length) ∧
    ws2.mesh = ws.mesh ∧
    (∀ e ∈ ws.mesh.edges, e.1 < ws.vert_caps.length + ws.mesh.verts.length ∧
      e.2 < ws.vert_caps.length + ws.mesh.verts.length) := by
  obtain ⟨caps0, caps1, capsP, bmP, capsQ, bmQ, capsF, bmF, pcs, bmC,
    h0, h1, hp, hq, hf, hcn, hwc, hwp, hwm, -⟩ := create_mesh_phases F ws ws2 bmr h
  obtain ⟨hlen0, -⟩ := initCaps_spec _ ws.kwargs ws.mesh.verts caps0 h0
  obtain ⟨hlen1, -⟩ :=
    addEdges_spec F ws.mesh.verts ws.mesh.edges 0 (ws.vert_caps ++ caps0) caps1 h1
  have hbounds :=
    addEdges_bounds F ws.mesh.verts ws.mesh.edges 0 (ws.vert_caps ++ caps0) caps1 h1
  obtain ⟨hlenP, -, -⟩ := polesPhase_spec F caps1 _ capsP bmP hp
  obtain ⟨hlenQ, -, -⟩ := profilesPhase_spec F (List.range capsP.length)
    capsP bmP capsQ bmQ hq (List.nodup_range _)
  obtain ⟨hlenF, -, -⟩ := facesPhase_spec (List.range capsQ.length)
    capsQ bmQ capsF bmF hf (List.nodup_range _)
  obtain ⟨⟨l, hl, hllen⟩, -⟩ := connectPhase_spec F ws.kwargs capsF
    ws.mesh.edges 0 ws.profile_connectors bmF pcs bmC hcn
  have happ : (ws.vert_caps ++ caps0).length = ws.vert_caps.length + caps0.length :=
    List.length_append _ _
  refine ⟨?_, ⟨l, by rw [hwp]; exact hl, hllen⟩, hwm, ?_⟩
  · rw [hwc]; omega
  · intro e he
    have := hbounds e he
    omega

/-- The caps appended by a build on an already used WireSkin whose edges
all target the pre-existing cap indices stay inert through every phase:
no edge verts, no profiles, no poles. -/
theorem build_fresh_tail (F : FloatOps α) (ws : WireSkin α) (ws2 : WireSkin α)
    (bmr : BM α) (i : Nat)
    (h : WireSkin.create_mesh F ws = Except.ok (ws2, bmr))
    (hge : ws.vert_caps.length ≤ i)
    (hlt : i < ws.vert_caps.length + ws.mesh.verts.length)
    (hno : ∀ e ∈ ws.mesh.edges, e.1 ≠ i ∧ e.2 ≠ i) :
    ∃ c, ws2.vert_caps.get? i = some c ∧ c.input_edge_verts = [] ∧
      c.profiles = [] ∧ c.poles = [] := by
  obtain ⟨caps0, caps1, capsP, bmP, capsQ, bmQ, capsF, bmF, pcs, bmC,
    h0, h1, hp, hq, hf, hcn, hwc, hwp, hwm, -⟩ := create_mesh_phases F ws ws2 bmr h
  obtain ⟨hlen0, hfresh⟩ := initCaps_spec _ ws.kwargs ws.mesh.verts caps0 h0
  obtain ⟨hlen1, hspec1⟩ :=
    addEdges_spec F ws.mesh.verts ws.mesh.edges 0 (ws.vert_caps ++ caps0) caps1 h1
  have happ : (ws.vert_caps ++ caps0).length = ws.vert_caps.length + caps0.length :=
    List.length_append _ _
  have hiA : i < (ws.vert_caps ++ caps0).length := by omega
  obtain ⟨c0, c1, hg0, hg1, hrel1, hproj1⟩ := hspec1 i hiA
  have hg0' : caps0.get? (i - ws.vert_caps.length) = some c0 := by
    rw [← hg0, List.get?_append_right hge]
  obtain ⟨⟨hfiev, hfpoles, hfprof, hfmap, hfnorm⟩, -⟩ := hfresh c0 (List.get?_mem hg0')
  have hinc : incidentIdx i 0 ws.mesh.edges = [] :=
    incidentIdx_nil_out i ws.mesh.edges 0 hno
  have hiev1 : c1.input_edge_verts = [] := by
    have hpj := hproj1
    rw [hfiev, hinc] at hpj
    simpa [eProj] using hpj
  have hpoles1 : c1.poles = [] := by rw [hrel1]; exact hfpoles
  have hprof1 : c1.profiles = [] := by rw [hrel1]; exact hfprof
  obtain ⟨hlenP, -, hspecP⟩ := polesPhase_spec F caps1 _ capsP bmP hp
  have hi1 : i < caps1.length := by omega
  obtain ⟨cP0, bmIn0, hgP0, -, hgP⟩ := hspecP i hi1
  have hcP0 : c1 = cP0 := by
    have := hg1.symm.trans hgP0
    injection this with hx
  subst hcP0
  have hgP' : capsP.get? i = some c1 := by
    rw [cpv_empty F c1 bmIn0 hiev1] at hgP
    exact hgP
  obtain ⟨hlenQ, houtQ, hinQ⟩ := profilesPhase_spec F (List.range capsP.length)
    capsP bmP capsQ bmQ hq (List.nodup_range _)
  have hiP : i < capsP.length := by omega
  obtain ⟨capsAt, bmIn1, cc, c2, bmOut1, hgQ0, -, hcp2, hgQ⟩ :=
    hinQ i (List.mem_range.mpr hiP)
  have hccc : c1 = cc := by
    have := hgP'.symm.trans hgQ0
    injection this with hx
  subst hccc
  have hc2 : c1 = c2 := by
    rw [create_profiles_empty F capsAt c1 bmIn1 hiev1] at hcp2
    injection hcp2 with hpair
    injection hpair with ha hb
  subst hc2
  obtain ⟨hlenF, houtF, hinF⟩ := facesPhase_spec (List.range capsQ.length)
    capsQ bmQ capsF bmF hf (List.nodup_range _)
  have hiQ : i < capsQ.length := by omega
  obtain ⟨cc2, bmIn2, bmMid2, c3, bmOut2, hgF0, hpf2, hif2, hgF⟩ :=
    hinF i (List.mem_range.mpr hiQ)
  have hccc2 : c1 = cc2 := by
    have := hgQ.symm.trans hgF0
    injection this with hx
  subst hccc2
  have hc3 : c1 = c3 := by
    rw [cipf_empty c1 bmMid2 (by rw [hiev1]; simp)] at hif2
    injection hif2 with hpair
    injection hpair with ha hb
  subst hc3
  exact ⟨c1, by rw [hwc]; exact hgF, hiev1, hprof1, hpoles1⟩

/-- create_pole_verts touches only the normal and poles fields. -/
theorem cpv_keeps_fields (F : FloatOps α) (c : VertCap α) (bm : BM α) :
    (VertCap.create_pole_verts F c bm).1 =
      { c with normal := (VertCap.create_pole_verts F c bm).1.normal,
               poles := (VertCap.create_pole_verts F c bm).1.poles } := by
  simp only [VertCap.create_pole_verts, BM.newVert]
  split_ifs <;> rfl

/-- create_profiles keeps the stored bmesh generation and never empties a
nonempty edge-vert list. -/
theorem create_profiles_keeps (F : FloatOps α) (caps : List (VertCap α))
    (c : VertCap α) (bm : BM α) (c2 : VertCap α) (bm2 : BM α)
    (h : VertCap.create_profiles F caps c bm = Except.ok (c2, bm2)) :
    c2.bm_gen = c.bm_gen ∧ (c.input_edge_verts ≠ [] → c2.input_edge_verts ≠ []) := by
  simp only [VertCap.create_profiles] at h
  split_ifs at h with h0
  · injection h with hp
    have hc : c = c2 := congrArg Prod.fst hp
    subst hc
    exact ⟨rfl, fun hne => hne⟩
  · cases hr : VertCap.reorder_edge_verts F c with
    | error e => rw [hr] at h; cases h
    | ok c1 =>
      rw [hr] at h
      obtain ⟨hg1, hne1⟩ := reorder_gen F c c1 hr
      obtain ⟨hrel, -, -, -⟩ := cpg_spec F caps c1.input_edge_verts c1 bm c2 bm2 h
      have hbg : c2.bm_gen = c1.bm_gen := by rw [hrel]
      have hie : c2.input_edge_verts = c1.input_edge_verts := by rw [hrel]
      exact ⟨hbg.trans hg1, fun hne => by rw [hie]; exact hne1 hne⟩

/-- An edge contributes its index to its first endpoint's incidence list. -/
theorem incidentIdx_head (e : Nat × Nat) (rest : List (Nat × Nat)) (j : Nat) :
    incidentIdx e.1 j (e :: rest) ≠ [] := by
  simp [incidentIdx]

/-- Per-vertex facts of a build on a fresh WireSkin needed to track the
caps it stores: every cap keeps the build's bmesh generation 0 and, when
the vertex has incident edges, a nonempty registered edge-vert list. -/
theorem build_cap_basic (F : FloatOps α) (m : Wireframe α) (kw : Kwargs α)
    (ws2 : WireSkin α) (bmr : BM α)
    (h : WireSkin.create_mesh F (WireSkin.init m kw) = Except.ok (ws2, bmr))
    (i : Nat) (hi : i < m.verts.length) :
    ∃ c, ws2.vert_caps.get? i = some c ∧ c.bm_gen = 0 ∧
      (incidentIdx i 0 m.edges ≠ [] → c.input_edge_verts ≠ []) := by
  obtain ⟨caps0, caps1, capsP, bmP, capsQ, bmQ, capsF, bmF, pcs, bmC,
    h0, h1, hp, hq, hf, hcn, hwc, hwp, hwm, -⟩ := create_mesh_phases F _ ws2 bmr h
  obtain ⟨hlen0, hfresh⟩ := initCaps_spec _ kw m.verts caps0 h0
  obtain ⟨hlen1, hspec1⟩ := addEdges_spec F m.verts m.edges 0 caps0 caps1 h1
  have hi0 : i < caps0.length := by omega
  obtain ⟨c0, c1, hg0, hg1, hrel1, hproj1⟩ := hspec1 i hi0
  obtain ⟨⟨hfiev, -, -, -, -⟩, hg0gen⟩ := hfresh c0 (List.get?_mem hg0)
  have hc1gen : c1.bm_gen = 0 := by
    have hbg : c1.bm_gen = c0.bm_gen := by rw [hrel1]
    rw [hbg, hg0gen]
    rfl
  have hproj1a : eProj c1.input_edge_verts = incidentIdx i 0 m.edges := by
    rw [hproj1, hfiev]
    simp [eProj]
  have hc1ne : incidentIdx i 0 m.edges ≠ [] → c1.input_edge_verts ≠ [] := by
    intro hne hnil
    rw [hnil] at hproj1a
    exact hne (by simpa [eProj] using hproj1a.symm)
  obtain ⟨hlenP, -, hspecP⟩ := polesPhase_spec F caps1 _ capsP bmP hp
  have hi1 : i < caps1.length := by omega
  obtain ⟨cP0, bmIn0, hgP0, -, hgP⟩ := hspecP i hi1
  have hcP0 : c1 = cP0 := by
    have := hg1.symm.trans hgP0
    injection this with hx
  subst hcP0
  set cP := (VertCap.create_pole_verts F c1 bmIn0).1 with hcPdef
  have hPrel := cpv_keeps_fields F c1 bmIn0
  rw [← hcPdef] at hPrel
  have hPgen : cP.bm_gen = c1.bm_gen := by rw [hPrel]
  have hPiev : cP.input_edge_verts = c1.input_edge_verts := by rw [hPrel]
  obtain ⟨hlenQ, houtQ, hinQ⟩ := profilesPhase_spec F (List.range capsP.length)
    capsP bmP capsQ bmQ hq (List.nodup_range _)
  have hiP : i < capsP.length := by omega
  obtain ⟨capsAt, bmIn1, cc, c2, bmOut1, hgQ0, -, hcp2, hgQ⟩ :=
    hinQ i (List.mem_range.mpr hiP)
  have hcc : cP = cc := by
    have := hgP.symm.trans hgQ0
    injection this with hx
  subst hcc
  obtain ⟨hQgen, hQne⟩ := create_profiles_keeps F capsAt cP bmIn1 c2 bmOut1 hcp2
  obtain ⟨hlenF, houtF, hinF⟩ := facesPhase_spec (List.range capsQ.length)
    capsQ bmQ capsF bmF hf (List.nodup_range _)
  have hiQ : i < capsQ.length := by omega
  obtain ⟨c2a, bmIn2, bmMid2, c3, bmOut2, hgF0, -, hif2, hgF⟩ :=
    hinF i (List.mem_range.mpr hiQ)
  have hc2a : c2 = c2a := by
    have := hgQ.symm.trans hgF0
    injection this with hx
  subst hc2a
  obtain ⟨-, hrel3, -, -⟩ := cipf_spec c2 c3 bmMid2 bmOut2 hif2
  have hFgen : c3.bm_gen = c2.bm_gen := by rw [hrel3]
  have hFiev : c3.input_edge_verts = c2.input_edge_verts := by rw [hrel3]
  refine ⟨c3, by rw [hwc]; exact hgF, ?_, ?_⟩
  · rw [hFgen, hQgen, hPgen, hc1gen]
  · intro hne
    rw [hFiev]
    exact hQne (by rw [hPiev]; exact hc1ne hne)

/-- C9 (corrected): create_mesh never clears vert_caps or
profile_connectors — a first build on a fresh instance leaves one cap per
vertex and one connector per edge and bumps the build counter, and every
successful build only appends to both lists. But a second build on the
same used instance cannot complete on a wireframe with at least one edge:
edge registration indexes caps by wireframe vertex index, so it keeps
hitting the first build's stale caps, whose writes go through the freed
first-build bmesh and abort the run. A build is only well-formed on a
freshly constructed WireSkin. -/
theorem c9_no_second_build (F : FloatOps α) (m : Wireframe α) (kw : Kwargs α)
    (ws1 : WireSkin α) (bm1 : BM α)
    (h1 : WireSkin.create_mesh F (WireSkin.init m kw) = Except.ok (ws1, bm1)) :
    ws1.vert_caps.length = m.verts.length ∧
    ws1.profile_connectors.length = m.edges.length ∧
    ws1.build_count = 1 ∧
    (∀ ws ws2 : WireSkin α, ∀ bmr : BM α,
      WireSkin.create_mesh F ws = Except.ok (ws2, bmr) →
      ws2.vert_caps.length = ws.vert_caps.length + ws.mesh.verts.length ∧
      ∃ l, ws2.profile_connectors = ws.profile_connectors ++ l ∧
        l.length = ws.mesh.edges.length) ∧
    (m.edges ≠ [] → ∀ r, WireSkin.create_mesh F ws1 ≠ Except.ok r) := by
  obtain ⟨hA, ⟨lA, hlA, hlAlen⟩, hAmesh, hAbounds⟩ := build_lengths F _ ws1 bm1 h1
  simp only [WireSkin.init, List.length_nil, Nat.zero_add] at hA hlAlen hAmesh hAbounds
  have hn1 : ws1.vert_caps.length = m.verts.length := by simpa using hA
  have hpcs1 : ws1.profile_connectors.length = m.edges.length := by
    rw [hlA]
    simp [WireSkin.init, hlAlen]
  have hbc : ws1.build_count = 1 := by
    obtain ⟨-, -, -, -, -, -, -, -, -, -, -, -, -, -, -, -, -, -, -, hb⟩ :=
      create_mesh_phases F _ ws1 bm1 h1
    exact hb
  refine ⟨hn1, hpcs1, hbc, ?_, ?_⟩
  · intro ws ws2 bmr hok
    obtain ⟨hL, hC, -, -⟩ := build_lengths F ws ws2 bmr hok
    exact ⟨hL, hC⟩
  · intro hne r hok2
    obtain ⟨ws2, bm2⟩ := r
    obtain ⟨caps0a, caps1a, capsPa, bmPa, capsQa, bmQa, capsFa, bmFa, pcsa, bmCa,
      h0a, h1a, hpa, hqa, hfa, hcna, -, -, -, -⟩ :=
      create_mesh_phases F ws1 ws2 bm2 hok2
    rw [hAmesh] at h1a
    cases hme : m.edges with
    | nil => exact hne hme
    | cons e rest =>
      have hea : e ∈ m.edges := by rw [hme]; exact List.mem_cons_self e rest
      obtain ⟨he1, -⟩ := hAbounds e hea
      obtain ⟨c, hgc, hcgen, hciev⟩ := build_cap_basic F m kw ws1 bm1 h1 e.1 he1
      have hcne : c.input_edge_verts ≠ [] := by
        refine hciev ?_
        rw [hme]
        exact incidentIdx_head e rest 0
      obtain ⟨hlen1a, hspec1a⟩ :=
        addEdges_spec F m.verts m.edges 0 (ws1.vert_caps ++ caps0a) caps1a h1a
      have hia : e.1 < (ws1.vert_caps ++ caps0a).length := by
        rw [List.length_append]
        omega
      obtain ⟨c0, c1, hg0, hg1, hrel1, hproj1⟩ := hspec1a e.1 hia
      have hg0app : (ws1.vert_caps ++ caps0a).get? e.1 = ws1.vert_caps.get? e.1 :=
        List.get?_append (by omega)
      have hc0 : c0 = c := by
        have := (hg0.symm.trans hg0app).trans hgc
        injection this with hx
      subst hc0
      have hc1gen : c1.bm_gen = 0 := by
        have hbg : c1.bm_gen = c0.bm_gen := by rw [hrel1]
        rw [hbg, hcgen]
      have hc1ne : c1.input_edge_verts ≠ [] := by
        have hlenp := congrArg List.length hproj1
        simp only [eProj, List.length_map, List.length_append] at hlenp
        have hcpos : 0 < c0.input_edge_verts.length := List.length_pos.mpr hcne
        intro hnil
        rw [hnil] at hlenp
        simp at hlenp
        omega
      obtain ⟨hlenPa, hgenPa, hspecPa⟩ := polesPhase_spec F caps1a _ capsPa bmPa hpa
      have hi1a : e.1 < caps1a.length := by omega
      obtain ⟨cP0, bmIn0, hgP0, -, hgP⟩ := hspecPa e.1 hi1a
      have hcP0 : c1 = cP0 := by
        have := hg1.symm.trans hgP0
        injection this with hx
      subst hcP0
      set cP := (VertCap.create_pole_verts F c1 bmIn0).1 with hcPdef
      have hPrel := cpv_keeps_fields F c1 bmIn0
      rw [← hcPdef] at hPrel
      have hPgen : cP.bm_gen = c1.bm_gen := by rw [hPrel]
      have hPiev : cP.input_edge_verts = c1.input_edge_verts := by rw [hPrel]
      obtain ⟨hlenQa, -, hinQa⟩ := profilesPhase_spec F (List.range capsPa.length)
        capsPa bmPa capsQa bmQa hqa (List.nodup_range _)
      have hiPa : e.1 < capsPa.length := by omega
      obtain ⟨capsAt, bmIn1, cc, c2, bmOut1, hgQ0, hgIn1, hcp2, -⟩ :=
        hinQa e.1 (List.mem_range.mpr hiPa)
      have hcc : cP = cc := by
        have := hgP.symm.trans hgQ0
        injection this with hx
      subst hcc
      have hneed := create_profiles_needs_gen F capsAt cP bmIn1 (c2, bmOut1) hcp2
        (by rw [hPiev]; exact hc1ne)
      rw [hPgen, hc1gen, hgIn1, hgenPa] at hneed
      have hg2 : (BM.fresh ws1.build_count : BM α).gen = ws1.build_count := rfl
      rw [hg2] at hneed
      omega

set_option maxRecDepth 1000000 in
/-- C9 counterexample to the spec's successful-second-build reading: the
second build over the used triangle instance does not return a mesh — the
stale cap for vertex 0 writes its pole through the first build's freed
bmesh and the run aborts with ReferenceError. -/
theorem c9_counterexample : triBuild2 = Except.error Err.referenceError := by
  with_unfolding_all decide

set_option maxRecDepth 1000000 in
/-- C9 witness: the triangle build leaves 3 caps, 3 connectors, a bumped
build counter, appends-only resizing for every successful build, and no
successful second build on the used instance. -/
theorem c9_witness :
    triWS.vert_caps.length = fixTri.verts.length ∧
    triWS.profile_connectors.length = fixTri.edges.length ∧
    triWS.build_count = 1 ∧
    (∀ ws ws2 : WireSkin ℚ, ∀ bmr : BM ℚ,
      WireSkin.create_mesh QOps ws = Except.ok (ws2, bmr) →
      ws2.vert_caps.length = ws.vert_caps.length + ws.mesh.verts.length ∧
      ∃ l, ws2.profile_connectors = ws.profile_connectors ++ l ∧
        l.length = ws.mesh.edges.length) ∧
    (fixTri.edges ≠ [] → ∀ r, WireSkin.create_mesh QOps triWS ≠ Except.ok r) :=
  c9_no_second_build QOps fixTri fixKw triWS triBM (by with_unfolding_all decide)

/-- The edge-to-profile lookup ignores the displace field. -/
theorem gep_disp (d : Option α) (c : VertCap α) (k : Nat) :
    VertCap.get_edge_profile (setDisp d c) k = VertCap.get_edge_profile c k := rfl

/-- VertCap.__init__ touches displace only to store it: two configurations
differing in displace build the same cap up to that field. -/
theorem init_disp (v : V3 α) (gen : Nat) (kw : Kwargs α) (d d2 : Option α) :
    VertCap.init v gen { kw with displace := d } =
      Except.map (setDisp d) (VertCap.init v gen { kw with displace := d2 }) := by
  rcases kw with ⟨w, hh, dd, ir, oor, r, cr, dp, ps⟩
  cases ir <;> cases oor <;> rfl

/-- initCaps lifted through the displace overwrite. -/
theorem initCaps_disp (gen : Nat) (kw : Kwargs α) (d d2 : Option α) :
    ∀ vs : List (V3 α),
      WireSkin.initCaps gen { kw with displace := d } vs =
        Except.map (List.map (setDisp d))
          (WireSkin.initCaps gen { kw with displace := d2 } vs) := by
  intro vs
  induction vs with
  | nil => rfl
  | cons v rest ih =>
    simp only [WireSkin.initCaps, ih, init_disp v gen kw d d2]
    cases VertCap.init v gen { kw with displace := d2 } with
    | error e => rfl
    | ok c =>
      cases WireSkin.initCaps gen { kw with displace := d2 } rest with
      | error e => rfl
      | ok cs => rfl

/-- One registration lifted through the displace overwrite. -/
theorem registerOne_disp (F : FloatOps α) (verts : List (V3 α)) (j this other : Nat)
    (d : Option α) (caps : List (VertCap α)) :
    WireSkin.registerOne F verts j this other (caps.map (setDisp d)) =
      Except.map (List.map (setDisp d)) (WireSkin.registerOne F verts j this other caps) := by
  simp only [WireSkin.registerOne, List.get?_map]
  cases verts.get? other with
  | none => rfl
  | some ov =>
    cases caps.get? this with
    | none => rfl
    | some c =>
      simp only [Option.map_some, Except.map, List.map_set]
      rfl

/-- The edge registration pass lifted through the displace overwrite. -/
theorem addEdges_disp (F : FloatOps α) (verts : List (V3 α)) (d : Option α) :
    ∀ (es : List (Nat × Nat)) (j : Nat) (caps : List (VertCap α)),
      WireSkin.addEdges F verts j es (caps.map (setDisp d)) =
        Except.map (List.map (setDisp d)) (WireSkin.addEdges F verts j es caps) := by
  intro es
  induction es with
  | nil => intro j caps; rfl
  | cons e rest ih =>
    intro j caps
    simp only [WireSkin.addEdges, registerOne_disp]
    cases WireSkin.registerOne F verts j e.1 e.2 caps with
    | error err => rfl
    | ok capsA =>
      simp only [Except.map, registerOne_disp]
      cases WireSkin.registerOne F verts j e.2 e.1 capsA with
      | error err => rfl
      | ok capsB => exact ih (j + 1) capsB

/-- The cap crease stamping ignores the displace field. -/
theorem crease_edges_disp (d : Option α) (c : VertCap α) (bm : BM α) :
    VertCap.crease_edges (setDisp d c) bm = VertCap.crease_edges c bm := rfl

/-- The cap half of the crease phase lifted through the overwrite. -/
theorem capsCrease_disp (d : Option α) :
    ∀ (caps : List (VertCap α)) (bm : BM α),
      WireSkin.capsCrease (caps.map (setDisp d)) bm = WireSkin.capsCrease caps bm := by
  intro caps
  induction caps with
  | nil => intro bm; rfl
  | cons c rest ih =>
    intro bm
    simp only [List.map_cons, WireSkin.capsCrease, crease_edges_disp]
    cases VertCap.crease_edges c bm with
    | error e => rfl
    | ok bm1 => exact ih bm1

/-- The displace overwrite leaves every other field unchanged. -/
theorem setDisp_input_edge_verts (d : Option α) (c : VertCap α) :
    (setDisp d c).input_edge_verts = c.input_edge_verts := rfl

/-- The displace overwrite leaves the profiles unchanged. -/
theorem setDisp_profiles (d : Option α) (c : VertCap α) :
    (setDisp d c).profiles = c.profiles := rfl

/-- The displace overwrite leaves the poles unchanged. -/
theorem setDisp_poles (d : Option α) (c : VertCap α) :
    (setDisp d c).poles = c.poles := rfl

/-- The displace overwrite leaves the crease unchanged. -/
theorem setDisp_crease (d : Option α) (c : VertCap α) :
    (setDisp d c).crease = c.crease := rfl

/-- The displace overwrite leaves the creased edges unchanged. -/
theorem setDisp_creased_edges (d : Option α) (c : VertCap α) :
    (setDisp d c).creased_edges = c.creased_edges := rfl

/-- The displace overwrite leaves the normal unchanged. -/
theorem setDisp_normal (d : Option α) (c : VertCap α) :
    (setDisp d c).normal = c.normal := rfl

/-- The displace overwrite leaves the map unchanged. -/
theorem setDisp_edge_profile_map (d : Option α) (c : VertCap α) :
    (setDisp d c).edge_profile_map = c.edge_profile_map := rfl

/-- The displace overwrite exposes the new displace. -/
theorem setDisp_displace (d : Option α) (c : VertCap α) :
    (setDisp d c).displace = d := rfl

/-- The displace overwrite keeps the stored bmesh generation. -/
theorem setDisp_bm_gen (d : Option α) (c : VertCap α) :
    (setDisp d c).bm_gen = c.bm_gen := rfl

/-- Updating creased edges commutes with the displace overwrite. -/
theorem setDisp_upd_creased (d : Option α) (c : VertCap α) (t : List (Nat × Nat)) :
    { setDisp d c with creased_edges := t } = setDisp d { c with creased_edges := t } := rfl

/-- Updating the edge verts commutes with the displace overwrite. -/
theorem setDisp_upd_iev (d : Option α) (c : VertCap α) (t : List (EdgeVert α)) :
    { setDisp d c with input_edge_verts := t } =
      setDisp d { c with input_edge_verts := t } := rfl

/-- The pole-faces loop ignores the displace field. -/
theorem cpf_go_disp (d : Option α) (c : VertCap α) :
    ∀ (ps : List (List Nat)) (bm : BM α),
      VertCap.create_pole_faces_go (setDisp d c) ps bm =
        VertCap.create_pole_faces_go c ps bm := by
  intro ps
  induction ps with
  | nil => intro bm; rfl
  | cons p rest ih =>
    intro bm
    simp only [VertCap.create_pole_faces_go, setDisp]
    split_ifs <;>
      repeat' first
        | rfl
        | exact ih _
        | split

/-- The inter-profile loop ignores the displace field of the fixed cap. -/
theorem ifg_dispFixed (d : Option α) (c : VertCap α) (np : Nat) :
    ∀ (idxs : List Nat) (vcA : VertCap α) (bm : BM α),
      VertCap.inter_faces_go (setDisp d c) np idxs vcA bm =
        VertCap.inter_faces_go c np idxs vcA bm := by
  intro idxs
  induction idxs with
  | nil => intro vcA bm; rfl
  | cons i rest ih =>
    intro vcA bm
    simp only [VertCap.inter_faces_go, setDisp_profiles, setDisp_poles, setDisp_bm_gen]
    repeat' split
    all_goals first
      | rfl
      | exact ih _ _

/-- The inter-profile loop carries the accumulator's displace through
unread. -/
theorem ifg_dispAcc (c : VertCap α) (np : Nat) (d : Option α) :
    ∀ (idxs : List Nat) (vcA : VertCap α) (bm : BM α),
      VertCap.inter_faces_go c np idxs (setDisp d vcA) bm =
        Except.map (fun pr => (setDisp d pr.1, pr.2))
          (VertCap.inter_faces_go c np idxs vcA bm) := by
  intro idxs
  induction idxs with
  | nil => intro vcA bm; rfl
  | cons i rest ih =>
    intro vcA bm
    have hupd : ∀ t : List (Nat × Nat),
        (if (setDisp d vcA).crease.isSome then
          { setDisp d vcA with
            creased_edges := (setDisp d vcA).creased_edges ++ t }
        else setDisp d vcA) =
        setDisp d (if vcA.crease.isSome then
          { vcA with creased_edges := vcA.creased_edges ++ t } else vcA) := by
      intro t
      by_cases h : vcA.crease.isSome = true
      · rw [if_pos (show (setDisp d vcA).crease.isSome = true from h), if_pos h]
        rfl
      · rw [if_neg (show ¬ (setDisp d vcA).crease.isSome = true from h), if_neg h]
    simp only [VertCap.inter_faces_go]
    simp only [hupd]
    repeat' split
    all_goals first
      | rfl
      | exact ih _ _

/-- The inter-profile loop lifted through the overwrite on both the fixed
cap and the accumulator. -/
theorem ifg_disp (d : Option α) (c : VertCap α) (np : Nat)
    (idxs : List Nat) (vcA : VertCap α) (bm : BM α) :
    VertCap.inter_faces_go (setDisp d c) np idxs (setDisp d vcA) bm =
      Except.map (fun pr => (setDisp d pr.1, pr.2))
        (VertCap.inter_faces_go c np idxs vcA bm) := by
  rw [ifg_dispFixed, ifg_dispAcc]

end WireSkinModel
